import Mathlib

/-!
Shallow embedding of the go-getopt scanner (package getopt).

Go strings are modelled as lists of runes (`Str := List Char`); all the
characters the scanner compares against (`-`, `=`, `:`, `;`, `W`) are ASCII,
so byte indexing and rune indexing agree at every position the code reads.
Go `int` indices are modelled as `Nat` (they start at 1 and are only ever
incremented or reset to in-range values, so no negative values arise).
The presence of the POSIXLY_CORRECT environment variable is passed to
`parseShortOptionSpec` as an explicit boolean parameter.
-/

namespace getopt

/-- Go strings as rune lists. -/
abbrev Str := List Char

/-- Convert a Lean string literal to the rune-list model. -/
def str (s : String) : Str := s.toList

/-- `const dash = "-"` (getopt.go line 26). -/
def dashStr : Str := str "-"

/-- `const argumentTerminator = "--"` (getopt.go line 27). -/
def argumentTerminatorStr : Str := str "--"

/-- `type ArgumentDisposition int` with its three values (getopt.go lines 32-39). -/
inductive ArgumentDisposition where
  | NoArgument
  | RequiredArgument
  | OptionalArgument
deriving DecidableEq, Repr

/-- Go's long-option descriptor `type Option struct` (getopt.go lines 50-55).
Named `LongOption` here to avoid clashing with Lean's `Option`.
The `Flag *rune` pointer is modelled by its identity: `none` is a nil
pointer and `some i` is the address of cell `i`; the scanner only compares
these pointers and writes through them, and no claim observes the pointed-to
cells, so the cells themselves are not part of the model. -/
structure LongOption where
  Name : Str
  HasArg : ArgumentDisposition
  Flag : Option Nat
  Val : Char
deriving DecidableEq, Repr

/-- `type ordering int` with its three values (getopt.go lines 61-76). -/
inductive ordering where
  | RequireOrder
  | Permute
  | ReturnInOrder
deriving DecidableEq, Repr

/-- Go map insertion `m[c] = v` for the `map[rune]ArgumentDisposition` model:
replace the binding if the key is present, otherwise append it. Lookup is
`lookupOpt` below; together they give exactly Go's map lookup semantics. -/
def mapInsert : List (Char × ArgumentDisposition) → Char → ArgumentDisposition →
    List (Char × ArgumentDisposition)
  | [], c, v => [(c, v)]
  | (k, w) :: rest, c, v =>
    if k = c then (c, v) :: rest else (k, w) :: mapInsert rest c v

/-- Go map lookup `m[c]` returning the value if present. -/
def lookupOpt : List (Char × ArgumentDisposition) → Char → Option ArgumentDisposition
  | [], _ => none
  | (k, w) :: rest, c => if k = c then some w else lookupOpt rest c

/-- `type optinfo struct` (shortopts.go lines 10-14). The `Opts` map is an
association list with `mapInsert`/`lookupOpt` as the map operations. -/
structure optinfo where
  Ordering : ordering
  W : Bool
  Opts : List (Char × ArgumentDisposition)
deriving DecidableEq, Repr

/-- `func (inf *optinfo) HasOpt(c rune) bool` (shortopts.go lines 16-19). -/
def optinfo.HasOpt (inf : optinfo) (c : Char) : Bool :=
  (lookupOpt inf.Opts c).isSome

/-- The option-letter loop of `parseShortOptionSpec` (shortopts.go lines 47-65),
written as recursion over the remaining rune list, threading the accumulated
map and `W` flag exactly as the Go loop threads `result`. -/
def parseLetters (opts : List (Char × ArgumentDisposition)) (w : Bool) :
    Str → List (Char × ArgumentDisposition) × Bool
  | [] => (opts, w)
  | 'W' :: ';' :: rest =>
    -- `W` immediately followed by `;`: register `W`, set the W flag, consume the `;`
    parseLetters (mapInsert opts 'W' .NoArgument) true rest
  | c :: ':' :: ':' :: rest =>
    -- two colons: optional argument (the letter is first registered, then upgraded)
    parseLetters
      (mapInsert (mapInsert (mapInsert opts c .NoArgument) c .RequiredArgument) c
        .OptionalArgument) w rest
  | c :: ':' :: rest =>
    -- one colon: required argument
    parseLetters (mapInsert (mapInsert opts c .NoArgument) c .RequiredArgument) w rest
  | c :: rest =>
    parseLetters (mapInsert opts c .NoArgument) w rest

/-- `func parseShortOptionSpec(options string) optinfo` (shortopts.go lines
25-67). `posixlyCorrect` models whether `os.LookupEnv("POSIXLY_CORRECT")`
finds the variable set. -/
def parseShortOptionSpec (options : Str) (posixlyCorrect : Bool) : optinfo :=
  let ord : ordering :=
    if dashStr.isPrefixOf options then .ReturnInOrder
    else if posixlyCorrect || (str "+").isPrefixOf options then .RequireOrder
    else .Permute
  let options1 :=
    if (str "+").isPrefixOf options || dashStr.isPrefixOf options then options.drop 1
    else options
  let options2 :=
    if (str ":").isPrefixOf options1 then options1.drop 1 else options1
  let (m, w) := parseLetters [] false options2
  { Ordering := ord, W := w, Opts := m }

/-- The four error values (errors file). The private `prefix` field is
modelled as `pfx`. -/
inductive GetoptError where
  | AmbiguousOption (opt : Str) (Candidates : List Str) (pfx : Str)
  | UnrecognizedOption (opt : Str) (pfx : Str)
  | ArgumentNotAllowed (opt : Str) (pfx : Str)
  | ArgumentRequired (opt : Str) (pfx : Str)
deriving DecidableEq, Repr

/-- The `Error()` methods of the four error types, rendering the exact
message text. -/
def errorMessage : GetoptError → Str
  | .AmbiguousOption o cands pfx =>
    str "option '" ++ pfx ++ o ++ str "' is ambiguous; possibilities:" ++
      cands.foldl (fun acc c => acc ++ str " '" ++ pfx ++ c ++ str "'") []
  | .UnrecognizedOption o pfx => str "unrecognized option '" ++ pfx ++ o ++ str "'"
  | .ArgumentNotAllowed o pfx => str "option '" ++ pfx ++ o ++ str "' doesn't allow an argument"
  | .ArgumentRequired o pfx => str "option '" ++ pfx ++ o ++ str "' requires an argument"

/-- `type Opt struct` (getopt.go lines 102-106). -/
structure Opt where
  C : Char
  Arg : Option Str
  LongInd : Nat
deriving DecidableEq, Repr

/-- `type Getopt struct` (getopt.go lines 79-95). `optreset` is set by
`Reset` but never read by the scanner, so it is omitted. -/
structure Getopt where
  Args : List Str
  shortOptions : optinfo
  longOptions : List LongOption
  optind : Nat
  nextChar : Str
  firstNonopt : Nat
  lastNonopt : Nat
deriving DecidableEq, Repr

/-- One call's outcome: `(nil, nil)` is `done`, `(opt, nil)` is `opt`,
`(nil, err)` is `error`. `crash` marks the slice-index panics that Go's
runtime would raise (possible only on the long-only fall-through paths). -/
inductive GetoptResult where
  | done
  | opt (o : Opt)
  | error (e : GetoptError)
  | crash
deriving DecidableEq, Repr

/-- `func nonoption(s string) bool` (getopt.go lines 368-370). -/
def nonoption (s : Str) : Bool :=
  !(dashStr.isPrefixOf s) || s.length == 1

/-- `func (g *Getopt) Reset(args []string, opts string)` (getopt.go lines
177-187), with the environment bit made explicit. -/
def Getopt.Reset (args : List Str) (opts : Str) (posixlyCorrect : Bool) : Getopt :=
  { Args := args
    shortOptions := parseShortOptionSpec opts posixlyCorrect
    longOptions := []
    optind := 1
    nextChar := []
    firstNonopt := 1
    lastNonopt := 1 }

/-- `func (g *Getopt) ResetLong` (getopt.go lines 194-197): `Reset` followed
by storing the long options. -/
def Getopt.ResetLong (args : List Str) (opts : Str) (longOptions : List LongOption)
    (posixlyCorrect : Bool) : Getopt :=
  { Getopt.Reset args opts posixlyCorrect with longOptions := longOptions }

/-- `Optind()` accessor (getopt.go lines 112-114). -/
def Getopt.Optind (g : Getopt) : Nat := g.optind

/-- One Go element swap `tem := a[x]; a[x] = a[y]; a[y] = tem`
(getopt.go lines 234-236 and 246-248). -/
def swapAt2 (l : List Str) (x y : Nat) : List Str :=
  (l.set x (l.getD y [])).set y (l.getD x [])

/-- The inner `for i := 0; i < length; i++` swap loop of `exchange`,
swapping `a[x+i]` with `a[y+i]` for `i < n`. -/
def swapRange (l : List Str) (x y : Nat) : Nat → List Str
  | 0 => l
  | n + 1 => swapRange (swapAt2 l x y) (x + 1) (y + 1) n

/-- The `for top > middle && middle > bottom` loop of `exchange`
(getopt.go lines 227-253), acting on the local copies of the indices.
`fuel` is a structural termination bound: each iteration shrinks
`top - bottom` by at least one, so `top - bottom` units of fuel always
suffice (`exchangeLoop` below supplies them). -/
def exchangeLoopF (l : List Str) (bottom middle top : Nat) : Nat → List Str
  | 0 => l
  | fuel + 1 =>
    if middle < top ∧ bottom < middle then
      if middle - bottom < top - middle then
        -- bottom segment is the short one: swap it with the top of the top segment
        exchangeLoopF (swapRange l bottom (top - (middle - bottom)) (middle - bottom)) bottom
          middle (top - (middle - bottom)) fuel
      else
        -- top segment is the short one: swap it with the bottom of the bottom segment
        exchangeLoopF (swapRange l bottom middle (top - middle)) (bottom + (top - middle))
          middle top fuel
    else l

/-- The exchange loop with enough fuel to run to completion. -/
def exchangeLoop (l : List Str) (bottom middle top : Nat) : List Str :=
  exchangeLoopF l bottom middle top (top - bottom)

/-- `func (g *Getopt) exchange()` (getopt.go lines 219-258). The trailing
index updates use `g.optind - g.lastNonopt`; every call site has
`lastNonopt < optind` after the preceding clamps, so the `Nat` subtraction
agrees with Go's `int` arithmetic there. -/
def Getopt.exchange (g : Getopt) : Getopt :=
  { g with
    Args := exchangeLoop g.Args g.firstNonopt g.lastNonopt g.optind
    firstNonopt := g.firstNonopt + (g.optind - g.lastNonopt)
    lastNonopt := g.optind }

/-- Result of `processLongOption`: Go's `(nil, nil)` "not actually a long
option" return, a recognized option, or an error. -/
inductive LongResult where
  | notLong
  | opt (o : Opt)
  | error (e : GetoptError)
deriving DecidableEq, Repr

/-- Placeholder used with `List.getD` at indices that `findIdx?` guarantees
are in range (Go dereferences `&g.longOptions[optionIndex]` there). -/
def defaultLongOption : LongOption := ⟨[], .NoArgument, none, ' '⟩

/-- Lines 267-270 of `processLongOption`: `namelen` is the index of the
first `=` in the remaining token (or its length), and the candidate name is
the part before it. -/
def longTarget (nextChar : Str) : Str :=
  nextChar.take ((nextChar.findIdx? (fun c => c = '=')).getD nextChar.length)

/-- Line 271: the part of the token from the first `=` on (including the
`=` itself); empty when there is no `=`. -/
def longNameEnd (nextChar : Str) : Str :=
  nextChar.drop ((nextChar.findIdx? (fun c => c = '=')).getD nextChar.length)

/-- The abbreviation-matching loop of `processLongOption` (getopt.go lines
288-300), threading `(optionIndex, pfound)` and `ambig.Candidates` exactly
as the Go loop does. -/
def abbrevScan (target : Str) (longOnly : Bool) :
    List LongOption → Option (Nat × LongOption) → List Str → Nat →
    Option (Nat × LongOption) × List Str
  | [], pfound, cands, _ => (pfound, cands)
  | p :: rest, pfound, cands, i =>
    if target.isPrefixOf p.Name then
      match pfound with
      | none =>
        -- first nonexact match found
        abbrevScan target longOnly rest (some (i, p)) (cands ++ [p.Name]) (i + 1)
      | some (j, pf) =>
        -- second or later nonexact match found
        if longOnly = true ∨ pf.HasArg ≠ p.HasArg ∨ pf.Flag ≠ p.Flag ∨ pf.Val ≠ p.Val then
          abbrevScan target longOnly rest (some (j, pf)) (cands ++ [p.Name]) (i + 1)
        else
          abbrevScan target longOnly rest (some (j, pf)) cands (i + 1)
    else
      abbrevScan target longOnly rest pfound cands (i + 1)

/-- The tail of `processLongOption` after a match was consumed (getopt.go
lines 353-364): report through the flag pointer (the write to the pointed-to
cell is outside the modelled scanner state) or report `Val` directly. -/
def finishLong (g : Getopt) (optionIndex : Nat) (pf : LongOption) (arg : Option Str) :
    Getopt × LongResult :=
  match pf.Flag with
  | some _ => (g, .opt { C := Char.ofNat 0, Arg := arg, LongInd := optionIndex })
  | none => (g, .opt { C := pf.Val, Arg := arg, LongInd := optionIndex })

/-- `func (g *Getopt) processLongOption(longOnly bool, prefix string)`
(getopt.go lines 266-365). The `g.Args[g.optind][1]` read on the
unrecognized-option path is modelled with `getD`; Go's `||` short-circuit
guarantees that read only happens at call sites where `optind` is in range
and the element has at least two runes. -/
def Getopt.processLongOption (g : Getopt) (longOnly : Bool) (pfx : Str) :
    Getopt × LongResult :=
  let nameend := longNameEnd g.nextChar
  let targetName := longTarget g.nextChar
  -- first look for an exact match (lines 273-282)
  let exactIdx := g.longOptions.findIdx? (fun p => p.Name = targetName)
  let scanned := abbrevScan targetName longOnly g.longOptions none [] 0
  let pfound : Option (Nat × LongOption) :=
    match exactIdx with
    | some i => some (i, g.longOptions.getD i defaultLongOption)
    | none => scanned.1
  if exactIdx = none ∧ 1 < scanned.2.length then
    -- ambiguous abbreviation (lines 302-309)
    ({ g with nextChar := [], optind := g.optind + 1 },
      .error (.AmbiguousOption g.nextChar scanned.2 pfx))
  else
    match pfound with
    | none =>
      -- lines 312-327
      if !longOnly || (g.Args.getD g.optind []).getD 1 ' ' = '-'
          || !(g.shortOptions.HasOpt (g.nextChar.getD 0 ' ')) then
        ({ g with nextChar := [], optind := g.optind + 1 },
          .error (.UnrecognizedOption g.nextChar pfx))
      else
        (g, .notLong)
    | some (optionIndex, pf) =>
      -- a matching long option was found; consume it (lines 330-331)
      let g1 : Getopt := { g with optind := g.optind + 1, nextChar := [] }
      if nameend.length ≠ 0 then
        if pf.HasArg = .NoArgument then
          (g1, .error (.ArgumentNotAllowed pf.Name pfx))
        else
          finishLong g1 optionIndex pf (some (nameend.drop 1))
      else if pf.HasArg = .RequiredArgument then
        if g1.Args.length ≤ g1.optind then
          (g1, .error (.ArgumentRequired pf.Name pfx))
        else
          finishLong { g1 with optind := g1.optind + 1 } optionIndex pf
            (some (g1.Args.getD g1.optind []))
      else
        finishLong g1 optionIndex pf none

/-- Map a `processLongOption` result to a call result at the sites where Go
returns it unconditionally (`return g.processLongOption(...)`): the
`(nil, nil)` case becomes the end-of-options sentinel. -/
def longToResult : Getopt × LongResult → Getopt × GetoptResult
  | (g, .notLong) => (g, .done)
  | (g, .opt o) => (g, .opt o)
  | (g, .error e) => (g, .error e)

/-- The short-option character processing (getopt.go lines 478-543), entered
with the "place" cursor `nextChar`. Go slice-index panics are `.crash`. -/
def Getopt.shortPhase (g : Getopt) : Getopt × GetoptResult :=
  match g.nextChar with
  | [] => (g, .crash)  -- Go panics indexing nextChar[0]
  | c :: rest =>
    let g : Getopt := { g with nextChar := rest }
    -- increment optind when starting to process the element's last character
    let g : Getopt := if rest.isEmpty then { g with optind := g.optind + 1 } else g
    if !(g.shortOptions.HasOpt c) then
      (g, .error (.UnrecognizedOption [c] dashStr))
    else if c = 'W' ∧ g.shortOptions.W = true ∧ 0 < g.longOptions.length then
      -- treat POSIX -W foo same as long option --foo (lines 496-509)
      if g.nextChar.isEmpty then
        if g.optind = g.Args.length then
          (g, .error (.ArgumentRequired [c] dashStr))
        else if g.Args.length < g.optind then
          (g, .crash)  -- Go panics indexing Args[optind]
        else
          longToResult (({ g with nextChar := g.Args.getD g.optind [] }).processLongOption
            false (str "-W "))
      else
        longToResult (g.processLongOption false (str "-W "))
    else
      match (lookupOpt g.shortOptions.Opts c).getD .NoArgument with
      | .OptionalArgument =>
        if !g.nextChar.isEmpty then
          ({ g with nextChar := [], optind := g.optind + 1 },
            .opt { C := c, Arg := some g.nextChar, LongInd := 0 })
        else
          ({ g with nextChar := [] }, .opt { C := c, Arg := none, LongInd := 0 })
      | .RequiredArgument =>
        if !g.nextChar.isEmpty then
          ({ g with nextChar := [], optind := g.optind + 1 },
            .opt { C := c, Arg := some g.nextChar, LongInd := 0 })
        else if g.optind = g.Args.length then
          (g, .error (.ArgumentRequired [c] dashStr))
        else if g.Args.length < g.optind then
          (g, .crash)  -- Go panics indexing Args[optind]
        else
          ({ g with nextChar := [], optind := g.optind + 1 },
            .opt { C := c, Arg := some (g.Args.getD g.optind []), LongInd := 0 })
      | .NoArgument => (g, .opt { C := c, Arg := none, LongInd := 0 })

/-- The `for g.optind < len(g.Args) && nonoption(g.Args[g.optind])` loop
(getopt.go lines 400-402), returning the final cursor: the cursor advances
over exactly the leading run of non-option elements starting at `i`. -/
def skipNonoptions (args : List Str) (i : Nat) : Nat :=
  i + ((args.drop i).takeWhile nonoption).length

/-- Lines 380-387 of `getoptInternalR`: give `firstNonopt` and `lastNonopt`
rational values if `optind` has been moved back. -/
def Getopt.clampNonopts (g : Getopt) : Getopt :=
  let g : Getopt := if g.optind < g.lastNonopt then { g with lastNonopt := g.optind } else g
  if g.optind < g.firstNonopt then { g with firstNonopt := g.optind } else g

/-- Lines 389-404: under `Permute`, exchange any pending non-option run
with the options processed since, then skip (and record) further
non-options. -/
def Getopt.permutePhase (g : Getopt) : Getopt :=
  if g.shortOptions.Ordering = .Permute then
    let g : Getopt :=
      if g.firstNonopt ≠ g.lastNonopt ∧ g.lastNonopt ≠ g.optind then g.exchange
      else if g.lastNonopt ≠ g.optind then { g with firstNonopt := g.optind }
      else g
    let g : Getopt := { g with optind := skipNonoptions g.Args g.optind }
    { g with lastNonopt := g.optind }
  else g

/-- Lines 406-420: the special ARGV element `--` means premature end of
options: skip it, exchange it with previous non-options as if it were an
option, then skip everything else like a non-option. -/
def Getopt.dashDashPhase (g : Getopt) : Getopt :=
  if g.optind ≠ g.Args.length ∧ g.Args.getD g.optind [] = argumentTerminatorStr then
    let g : Getopt := { g with optind := g.optind + 1 }
    let g : Getopt :=
      if g.firstNonopt ≠ g.lastNonopt ∧ g.lastNonopt ≠ g.optind then g.exchange
      else if g.firstNonopt = g.lastNonopt then { g with firstNonopt := g.optind }
      else g
    { g with lastNonopt := g.Args.length, optind := g.Args.length }
  else g

/-- Lines 422-431: if all ARGV elements are done, stop the scan, backing
the cursor over any non-options that were skipped and permuted. -/
def Getopt.endCheck (g : Getopt) : Getopt × Option GetoptResult :=
  if g.optind = g.Args.length then
    if g.firstNonopt ≠ g.lastNonopt then ({ g with optind := g.firstNonopt }, some .done)
    else (g, some .done)
  else (g, none)

/-- Lines 377-431 of `getoptInternalR`: advance to the next ARGV element.
Returns `some .done` for the early sentinel returns, `none` to continue
with the element at the cursor. -/
def Getopt.advanceArgv (g : Getopt) : Getopt × Option GetoptResult :=
  g.clampNonopts.permutePhase.dashDashPhase.endCheck

/-- Line 474-475: it is not a long option; skip the initial punctuation and
process the element as short options. Go's slice-index panics (reachable
only after a swallowed long-only error) are `.crash`. -/
def Getopt.shortEntry (g : Getopt) : Getopt × GetoptResult :=
  if g.Args.length ≤ g.optind then (g, .crash)
  else
    let cur := g.Args.getD g.optind []
    if cur.length < 1 then (g, .crash)  -- []rune("")[1:] panics in Go
    else ({ g with nextChar := cur.drop 1 }).shortPhase

/-- `func (g *Getopt) getoptInternalR(longOnly bool)` (getopt.go lines
372-544). On the long-only attempt (lines 465-471) Go checks only
`opt != nil`, so an error result falls through to short-option processing
with the error swallowed; this is modelled exactly. -/
def Getopt.getoptInternalR (g : Getopt) (longOnly : Bool) : Getopt × GetoptResult :=
  if g.Args.length < 1 then (g, .done)
  else if g.nextChar.isEmpty then
    match g.advanceArgv with
    | (g1, some r) => (g1, r)
    | (g1, none) =>
      let cur := g1.Args.getD g1.optind []
      if nonoption cur then
        -- lines 433-445: a non-option that was not permuted
        if g1.shortOptions.Ordering = .RequireOrder then (g1, .done)
        else ({ g1 with optind := g1.optind + 1 },
          .opt { C := Char.ofNat 1, Arg := some cur, LongInd := 0 })
      else if 0 < g1.longOptions.length ∧ cur.getD 1 ' ' = '-' then
        -- lines 449-453: "--foo" is always a long option
        longToResult (({ g1 with nextChar := cur.drop 2 }).processLongOption longOnly
          argumentTerminatorStr)
      else if 0 < g1.longOptions.length ∧ longOnly = true ∧
          (1 < cur.length ∨ ¬g1.shortOptions.HasOpt (cur.getD 1 ' ') = true) then
        -- lines 465-471
        match ({ g1 with nextChar := cur.drop 1 }).processLongOption longOnly dashStr with
        | (g2, .opt o) => (g2, .opt o)
        | (g2, .error _) => g2.shortEntry
        | (g2, .notLong) => g2.shortEntry
      else g1.shortEntry
  else g.shortPhase

/-- `Getopt()` and `GetoptLong()` (getopt.go lines 144-151). -/
def Getopt.GetoptCall (g : Getopt) : Getopt × GetoptResult := g.getoptInternalR false

/-- `GetoptLongOnly()` (getopt.go lines 155-157). -/
def Getopt.GetoptLongOnlyCall (g : Getopt) : Getopt × GetoptResult := g.getoptInternalR true

/-- Drive the scanner as the documented calling convention does: call
repeatedly, collecting each result, stopping at the first end-of-options
sentinel (or at a crash). The boolean reports whether the sentinel was
reached within the fuel. -/
def runGetopt (g : Getopt) (longOnly : Bool) : Nat → List GetoptResult × Getopt × Bool
  | 0 => ([], g, false)
  | fuel + 1 =>
    match g.getoptInternalR longOnly with
    | (g1, .done) => ([.done], g1, true)
    | (g1, .crash) => ([.crash], g1, false)
    | (g1, r) =>
      let (rs, gf, fin) := runGetopt g1 longOnly fuel
      (r :: rs, gf, fin)

end getopt

namespace getopt

/-! ## Claim C10: empty argument vector -/

/-- C10: if the scanner's `Args` slice is empty, every call to `Getopt`,
`GetoptLong` or `GetoptLongOnly` (all of which run `getoptInternalR`)
returns the end-of-options sentinel immediately and leaves the entire
scanner state unchanged. -/
theorem C10_empty_args_done (g : Getopt) (lo : Bool) (h : g.Args = []) :
    g.getoptInternalR lo = (g, .done) := by
  unfold Getopt.getoptInternalR
  simp [h]

/-- Witness for C10 at a concrete empty-vector scanner. -/
theorem C10_empty_args_done_witness :
    (Getopt.Reset [] (str "ab") false).getoptInternalR true =
      (Getopt.Reset [] (str "ab") false, .done) :=
  C10_empty_args_done _ _ rfl

/-! ## Claim C5: ordering selection in the table builder -/

/-- C5: the table builder selects `ReturnInOrder` for a leading `-` (even
when POSIXLY_CORRECT is present), `RequireOrder` for a leading `+`,
`RequireOrder` when neither prefix is present but POSIXLY_CORRECT is, and
`Permute` otherwise; and the `+`/`-` prefix character is consumed before
the remaining characters are parsed as option letters (after the optional
leading `:`). -/
theorem C5_ordering_selection (s : Str) (env : Bool) :
    (parseShortOptionSpec ('-' :: s) env).Ordering = ordering.ReturnInOrder ∧
    (parseShortOptionSpec ('+' :: s) env).Ordering = ordering.RequireOrder ∧
    (s.head? ≠ some '-' → s.head? ≠ some '+' →
      (parseShortOptionSpec s env).Ordering =
        if env then ordering.RequireOrder else ordering.Permute) ∧
    (∀ p : Char, p = '+' ∨ p = '-' →
      ((parseShortOptionSpec (p :: s) env).Opts, (parseShortOptionSpec (p :: s) env).W) =
        parseLetters [] false (if s.head? = some ':' then s.drop 1 else s)) := by
  refine ⟨?_, ?_, ?_, ?_⟩
  · simp [parseShortOptionSpec, dashStr, str, List.isPrefixOf]
  · simp [parseShortOptionSpec, dashStr, str, List.isPrefixOf]
  · intro h1 h2
    cases s with
    | nil => simp [parseShortOptionSpec, dashStr, str, List.isPrefixOf]
    | cons c t =>
      simp only [List.head?] at h1 h2
      have hc1 : c ≠ '-' := by intro hh; exact h1 (by rw [hh])
      have hc2 : c ≠ '+' := by intro hh; exact h2 (by rw [hh])
      simp [parseShortOptionSpec, dashStr, str, List.isPrefixOf, hc1, hc2,
        Ne.symm hc1, Ne.symm hc2]
  · rintro p (rfl | rfl) <;>
    · cases s with
      | nil => simp [parseShortOptionSpec, dashStr, str, List.isPrefixOf]
      | cons c t =>
        by_cases hc : c = ':'
        · simp [parseShortOptionSpec, dashStr, str, List.isPrefixOf, hc]
        · simp [parseShortOptionSpec, dashStr, str, List.isPrefixOf, hc, Ne.symm hc]

/-- Witness for C5 at a concrete spec string. -/
theorem C5_ordering_selection_witness :
    (parseShortOptionSpec (str "ab:") true).Ordering = ordering.RequireOrder ∧
    ((parseShortOptionSpec (str "+ab:") false).Opts,
      (parseShortOptionSpec (str "+ab:") false).W) = parseLetters [] false (str "ab:") := by
  refine ⟨(C5_ordering_selection (str "b:") true).2.2.1 (by decide) (by decide), ?_⟩
  exact (C5_ordering_selection (str "ab:") false).2.2.2 '+' (Or.inl rfl)

end getopt

namespace getopt

/-! ## Claim C6: classification of non-options -/

/-- C6 counterexample: with `-` registered as a short-option character
(spec string `-a-` registers `a` and `-`), the solitary element `-` is
still classified as a non-option: under `ReturnInOrder` the call reports it
as the pseudo-option with code 1 instead of processing it as the option
`-`. The claim asserts it would not be treated as a non-option. -/
theorem C6_dash_registered_counterexample :
    (Getopt.Reset [str "prog", str "-"] (str "-a-") false).shortOptions.HasOpt '-' = true ∧
    (Getopt.Reset [str "prog", str "-"] (str "-a-") false).GetoptCall =
      ({ Getopt.Reset [str "prog", str "-"] (str "-a-") false with optind := 2 },
        .opt { C := Char.ofNat 1, Arg := some (str "-"), LongInd := 0 }) := by
  exact ⟨rfl, rfl⟩

/-- C6 amended: an element that does not start with `-` is classified as a
non-option, and the solitary element `-` is always classified as a
non-option — also for every table in which `-` is registered (the
classification function `nonoption` never consults the table). -/
theorem C6_nonoption_classification (s : Str) (inf : optinfo) :
    (¬dashStr.isPrefixOf s = true → nonoption s = true) ∧
    (inf.HasOpt '-' = true → nonoption dashStr = true) := by
  constructor
  · intro h
    simp [nonoption, h]
  · intro _
    rfl

/-- Witness for C6 at concrete inputs. -/
theorem C6_nonoption_classification_witness :
    nonoption (str "xy") = true ∧ nonoption dashStr = true := by
  have h := C6_nonoption_classification (str "xy")
    (parseShortOptionSpec (str "-a-") false)
  exact ⟨(h.1 (by decide)), (h.2 (by decide))⟩

/-! ## Claim C7: long-only dispatch of `-`-elements -/

/-- C7: the code contradicts its own comment (getopt.go lines 456-464).
For `GetoptLongOnly` with element `-c`, short spec `c` and long table
`[charlie]`, the element is submitted to long-option resolution (the guard
tests the whole element's length, `len(g.Args[g.optind]) > 1`, which always
holds, instead of the remainder's length), so `-c` matches the long option
`charlie` by abbreviation instead of being processed as the registered
short option `c`. -/
theorem C7_long_only_dispatch_bug :
    (Getopt.ResetLong [str "prog", str "-c"] (str "c")
        [⟨str "charlie", .NoArgument, none, 'x'⟩] false).shortOptions.HasOpt 'c' = true ∧
    (Getopt.ResetLong [str "prog", str "-c"] (str "c")
        [⟨str "charlie", .NoArgument, none, 'x'⟩] false).GetoptLongOnlyCall =
      ({ Getopt.ResetLong [str "prog", str "-c"] (str "c")
          [⟨str "charlie", .NoArgument, none, 'x'⟩] false with optind := 2 },
        .opt { C := 'x', Arg := none, LongInd := 0 }) := by
  exact ⟨rfl, rfl⟩

end getopt

namespace getopt

/-! ## Claim C4: missing required argument of a long option -/

/-- When the token holds no `=`, the candidate name is the whole token. -/
theorem longTarget_of_no_eq (s : Str) (h : '=' ∉ s) :
    longTarget s = s ∧ longNameEnd s = [] := by
  have hfi : s.findIdx? (fun c => c = '=') = none := by
    refine List.findIdx?_eq_none_iff.mpr (fun x hx => ?_)
    simp only [decide_eq_false_iff_not]
    intro hxe
    exact h (hxe ▸ hx)
  constructor
  · simp [longTarget, hfi]
  · simp [longNameEnd, hfi]

/-- The match that `processLongOption` settles on (getopt.go lines
273-300): the first exact name match, or else the first abbreviation
(prefix) match found by the scan loop. -/
def Getopt.longMatch (g : Getopt) (longOnly : Bool) : Option (Nat × LongOption) :=
  match g.longOptions.findIdx? (fun p => p.Name = longTarget g.nextChar) with
  | some i => some (i, g.longOptions.getD i defaultLongOption)
  | none => (abbrevScan (longTarget g.nextChar) longOnly g.longOptions none [] 0).1

/-- C4 amended: when the matched long option — matched exactly or as an
unambiguous abbreviation — requires an argument and no `=`-argument was
supplied, the next vector element (if any) is consumed as the argument
with the cursor advanced past it; if none remains the call returns
`ArgumentRequiredError` with exactly the message
`option '<prefix><name>' requires an argument`, and the cursor stays just
past the option token (it is *not* rolled back to the option token —
see `C4_no_rollback_counterexample`). -/
theorem C4_required_argument_missing (g : Getopt) (lo : Bool) (pfx : Str)
    (i : Nat) (pf : LongOption) (hpf : g.longMatch lo = some (i, pf))
    (hnamb : ¬(g.longOptions.findIdx? (fun p => p.Name = longTarget g.nextChar) = none ∧
      1 < (abbrevScan (longTarget g.nextChar) lo g.longOptions none [] 0).2.length))
    (hreq : pf.HasArg = .RequiredArgument) (hne : '=' ∉ g.nextChar) :
    (g.Args.length ≤ g.optind + 1 →
      g.processLongOption lo pfx =
        ({ g with nextChar := [], optind := g.optind + 1 },
          .error (.ArgumentRequired pf.Name pfx)) ∧
      errorMessage (.ArgumentRequired pf.Name pfx) =
        str "option '" ++ pfx ++ pf.Name ++ str "' requires an argument") ∧
    (g.optind + 1 < g.Args.length →
      (g.processLongOption lo pfx).1.optind = g.optind + 2 ∧
      ∃ o, (g.processLongOption lo pfx).2 = .opt o ∧
        o.Arg = some (g.Args.getD (g.optind + 1) []) ∧ o.LongInd = i) := by
  obtain ⟨ht, he⟩ := longTarget_of_no_eq g.nextChar hne
  unfold Getopt.longMatch at hpf
  rw [ht] at hpf hnamb
  cases hex : g.longOptions.findIdx? (fun p => p.Name = g.nextChar) with
  | some i0 =>
    rw [hex] at hpf
    have hpair : (i0, g.longOptions.getD i0 defaultLongOption) = (i, pf) := by
      injection hpf
    injection hpair with hi hp2
    subst hi
    subst hp2
    have hreq' := hreq
    simp only [List.getD_eq_getElem?_getD] at hreq'
    constructor
    · intro hlen
      refine ⟨?_, rfl⟩
      unfold Getopt.processLongOption
      simp only [he, ht]
      rw [hex]
      simp [hreq', hlen]
    · intro hlen
      have hsplit : g.processLongOption lo pfx =
          finishLong { g with optind := g.optind + 2, nextChar := [] } i0
            (g.longOptions.getD i0 defaultLongOption)
            (some (g.Args.getD (g.optind + 1) [])) := by
        unfold Getopt.processLongOption
        simp only [he, ht]
        rw [hex]
        simp [hreq', Nat.not_le.mpr hlen, List.getD_eq_getElem?_getD]
      rw [hsplit]
      unfold finishLong
      cases hf : (g.longOptions.getD i0 defaultLongOption).Flag <;> simp [hf]
  | none =>
    rw [hex] at hpf
    have hpf2 : (abbrevScan g.nextChar lo g.longOptions none [] 0).1 = some (i, pf) :=
      hpf
    have hlen2 : ¬1 < (abbrevScan g.nextChar lo g.longOptions none [] 0).2.length :=
      fun hgt => hnamb ⟨hex, hgt⟩
    constructor
    · intro hlen
      refine ⟨?_, rfl⟩
      unfold Getopt.processLongOption
      simp only [he, ht]
      rw [hex]
      simp [hpf2, hreq, hlen, hlen2]
    · intro hlen
      have hsplit : g.processLongOption lo pfx =
          finishLong { g with optind := g.optind + 2, nextChar := [] } i pf
            (some (g.Args.getD (g.optind + 1) [])) := by
        unfold Getopt.processLongOption
        simp only [he, ht]
        rw [hex]
        simp [hpf2, hreq, Nat.not_le.mpr hlen, hlen2, List.getD_eq_getElem?_getD]
      rw [hsplit]
      unfold finishLong
      cases hf : pf.Flag <;> simp [hf]

end getopt

namespace getopt

/-- C4 counterexample: for `["prog", "--bravo"]` with long option `bravo`
requiring an argument, the call returns the ArgumentRequired error but the
cursor is 2 — just past the option token — not 1 (the option token's
index), so the claimed rollback of the cursor advance does not happen. -/
theorem C4_no_rollback_counterexample :
    (Getopt.ResetLong [str "prog", str "--bravo"] (str "")
        [⟨str "bravo", .RequiredArgument, none, 'b'⟩] false).GetoptCall.2 =
      .error (.ArgumentRequired (str "bravo") (str "--")) ∧
    (Getopt.ResetLong [str "prog", str "--bravo"] (str "")
        [⟨str "bravo", .RequiredArgument, none, 'b'⟩] false).GetoptCall.1.Optind = 2 ∧
    ¬(Getopt.ResetLong [str "prog", str "--bravo"] (str "")
        [⟨str "bravo", .RequiredArgument, none, 'b'⟩] false).GetoptCall.1.Optind = 1 := by
  exact ⟨rfl, rfl, by decide⟩

/-- Witness for C4 at a concrete scanner state: the abbreviation `--brav`
matches `bravo` (RequiredArgument); with no further element the error is
returned, and with a following element `x` the cursor advances past it. -/
theorem C4_required_argument_missing_witness :
    ((⟨[str "p", str "--brav"], ⟨.Permute, false, []⟩,
        [⟨str "bravo", .RequiredArgument, none, 'b'⟩], 1, str "brav", 1, 1⟩ :
          Getopt).processLongOption false (str "--") =
      ({ (⟨[str "p", str "--brav"], ⟨.Permute, false, []⟩,
          [⟨str "bravo", .RequiredArgument, none, 'b'⟩], 1, str "brav", 1, 1⟩ : Getopt) with
          nextChar := [], optind := 2 },
        .error (.ArgumentRequired (str "bravo") (str "--")))) ∧
    ((⟨[str "p", str "--brav", str "x"], ⟨.Permute, false, []⟩,
        [⟨str "bravo", .RequiredArgument, none, 'b'⟩], 1, str "brav", 1, 1⟩ :
          Getopt).processLongOption false (str "--")).1.optind = 3 := by
  constructor
  · exact (C4_required_argument_missing _ false (str "--") 0
      ⟨str "bravo", .RequiredArgument, none, 'b'⟩ (by decide) (by decide) rfl
      (by decide)).1 (by decide) |>.1
  · have h := (C4_required_argument_missing
      (⟨[str "p", str "--brav", str "x"], ⟨.Permute, false, []⟩,
        [⟨str "bravo", .RequiredArgument, none, 'b'⟩], 1, str "brav", 1, 1⟩ : Getopt)
      false (str "--") 0 ⟨str "bravo", .RequiredArgument, none, 'b'⟩
      (by decide) (by decide) rfl (by decide)).2 (by decide)
    exact h.1

end getopt

namespace getopt

/-! ## Claim C3: long-option abbreviation resolution -/

/-- Specification-level description of the surviving ambiguity candidates:
the first prefix-matching entry, followed by every later prefix-matching
entry that is distinguishable from it (different argument disposition,
output flag, or reported value) — or, in long-only mode, every later
prefix-matching entry unconditionally. -/
def survivors (target : Str) (longOnly : Bool) : List LongOption → List Str
  | [] => []
  | p :: rest =>
    if target.isPrefixOf p.Name then
      p.Name :: (rest.filter (fun q => target.isPrefixOf q.Name &&
        (longOnly || q.HasArg != p.HasArg || q.Flag != p.Flag || q.Val != p.Val))).map
        (fun q => q.Name)
    else survivors target longOnly rest

/-- The candidate list accumulated by `abbrevScan` once a first match `pf`
is fixed is the filter of the remaining entries. -/
theorem abbrevScan_candidates_some (target : Str) (lo : Bool) (opts : List LongOption)
    (j : Nat) (pf : LongOption) (cands : List Str) (i : Nat) :
    (abbrevScan target lo opts (some (j, pf)) cands i).2 =
      cands ++ (opts.filter (fun q => target.isPrefixOf q.Name &&
        (lo || q.HasArg != pf.HasArg || q.Flag != pf.Flag || q.Val != pf.Val))).map
        (fun q => q.Name) := by
  induction opts generalizing cands i with
  | nil => simp [abbrevScan]
  | cons p rest ih =>
    by_cases hp : target.isPrefixOf p.Name
    · by_cases hd : lo = true ∨ pf.HasArg ≠ p.HasArg ∨ pf.Flag ≠ p.Flag ∨ pf.Val ≠ p.Val
      · have hb : (target.isPrefixOf p.Name &&
            (lo || p.HasArg != pf.HasArg || p.Flag != pf.Flag || p.Val != pf.Val)) = true := by
          simp only [hp, Bool.true_and, Bool.or_eq_true, bne_iff_ne]
          rcases hd with h | h | h | h
          · exact Or.inl (Or.inl (Or.inl h))
          · exact Or.inl (Or.inl (Or.inr (Ne.symm h)))
          · exact Or.inl (Or.inr (Ne.symm h))
          · exact Or.inr (Ne.symm h)
        simp only [abbrevScan, if_pos hp, if_pos hd, ih, List.filter_cons, hb, List.map_cons]
        simp
      · have hb : (target.isPrefixOf p.Name &&
            (lo || p.HasArg != pf.HasArg || p.Flag != pf.Flag || p.Val != pf.Val)) = false := by
          simp only [Bool.and_eq_false_iff]
          right
          push_neg at hd
          obtain ⟨h1, h2, h3, h4⟩ := hd
          simp [h1, h2.symm, h3.symm, h4.symm]
        simp only [abbrevScan, if_pos hp, if_neg hd, ih, List.filter_cons, hb]
        simp
    · have hb : (target.isPrefixOf p.Name &&
          (lo || p.HasArg != pf.HasArg || p.Flag != pf.Flag || p.Val != pf.Val)) = false := by
        simp [hp]
      simp only [abbrevScan, if_neg hp, ih, List.filter_cons, hb]
      simp

/-- The candidate list of the full abbreviation scan equals the
specification-level `survivors` list. -/
theorem abbrevScan_candidates (target : Str) (lo : Bool) (opts : List LongOption) (i : Nat) :
    (abbrevScan target lo opts none [] i).2 = survivors target lo opts := by
  induction opts generalizing i with
  | nil => simp [abbrevScan, survivors]
  | cons p rest ih =>
    by_cases hp : target.isPrefixOf p.Name
    · simp only [abbrevScan, if_pos hp, survivors, abbrevScan_candidates_some]
      simp
    · simp only [abbrevScan, if_neg hp, survivors, ih]

end getopt

namespace getopt

/-- C3 counterexample: under long-only resolution (`GetoptLongOnly`), two
prefix-matching entries that are mutually indistinguishable (same `HasArg`,
same `Flag`, same `Val`) are *not* collapsed: token `col` against entries
`color` and `colour` (both no-argument, nil flag, value `c`) yields an
AmbiguousOptionError, while the claim says only one distinct candidate
remains after collapsing, so the first entry should match with no
ambiguity error. -/
theorem C3_longonly_no_collapse_counterexample :
    (⟨str "color", .NoArgument, none, 'c'⟩ : LongOption).HasArg =
      (⟨str "colour", .NoArgument, none, 'c'⟩ : LongOption).HasArg ∧
    (⟨str "color", .NoArgument, none, 'c'⟩ : LongOption).Flag =
      (⟨str "colour", .NoArgument, none, 'c'⟩ : LongOption).Flag ∧
    (⟨str "color", .NoArgument, none, 'c'⟩ : LongOption).Val =
      (⟨str "colour", .NoArgument, none, 'c'⟩ : LongOption).Val ∧
    (Getopt.ResetLong [str "prog", str "--col"] (str "")
        [⟨str "color", .NoArgument, none, 'c'⟩, ⟨str "colour", .NoArgument, none, 'c'⟩]
        false).GetoptLongOnlyCall.2 =
      .error (.AmbiguousOption (str "col") [str "color", str "colour"] (str "--")) := by
  exact ⟨rfl, rfl, rfl, rfl⟩

/-- The long-option table of the claim's concrete example. -/
def C3table : List LongOption :=
  [⟨str "one", .NoArgument, none, '1'⟩, ⟨str "two", .NoArgument, none, '2'⟩,
   ⟨str "one-one", .NoArgument, none, '3'⟩, ⟨str "four", .NoArgument, none, '4'⟩,
   ⟨str "onto", .NoArgument, none, '5'⟩]

/-- C3 amended: an exact name match takes the first such entry in table
order, immediately and with no ambiguity error; with no exact match, if
more than one candidate survives — where, when long-only mode is off,
candidates indistinguishable from the first match (same `HasArg`, `Flag`,
`Val`) are collapsed into it, but in long-only mode every later
prefix-matching entry survives — the call fails with an
AmbiguousOptionError listing every surviving candidate name in table
order; for the table `one, two, one-one, four, onto` and token `on` the
result is ambiguous with exactly `one, one-one, onto`. -/
theorem C3_abbreviation_resolution (g : Getopt) (lo : Bool) (pfx : Str) :
    (∀ i : Nat,
      g.longOptions.findIdx? (fun p => p.Name = longTarget g.nextChar) = some i →
      (∃ o, (g.processLongOption lo pfx).2 = .opt o ∧ o.LongInd = i) ∨
      (g.processLongOption lo pfx).2 =
        .error (.ArgumentNotAllowed (g.longOptions.getD i defaultLongOption).Name pfx) ∨
      (g.processLongOption lo pfx).2 =
        .error (.ArgumentRequired (g.longOptions.getD i defaultLongOption).Name pfx)) ∧
    (g.longOptions.findIdx? (fun p => p.Name = longTarget g.nextChar) = none →
      1 < (survivors (longTarget g.nextChar) lo g.longOptions).length →
      g.processLongOption lo pfx =
        ({ g with nextChar := [], optind := g.optind + 1 },
          .error (.AmbiguousOption g.nextChar
            (survivors (longTarget g.nextChar) lo g.longOptions) pfx))) ∧
    (Getopt.ResetLong [str "program", str "--on"] (str "12345") C3table
        false).GetoptCall.2 =
      .error (.AmbiguousOption (str "on") [str "one", str "one-one", str "onto"]
        (str "--")) := by
  refine ⟨?_, ?_, rfl⟩
  · intro i hf
    unfold Getopt.processLongOption
    simp only [hf]
    rw [if_neg (by simp)]
    by_cases h1 : (longNameEnd g.nextChar).length = 0
    · by_cases h2 : (g.longOptions.getD i defaultLongOption).HasArg = .RequiredArgument
      · by_cases h3 : g.Args.length ≤ g.optind + 1
        · right; right
          simp only [List.getD_eq_getElem?_getD] at h2 ⊢
          simp [h1, h2, h3]
        · left
          cases hfl : (g.longOptions.getD i defaultLongOption).Flag <;>
          · simp only [List.getD_eq_getElem?_getD] at h2 hfl ⊢
            simp [h1, h2, h3, finishLong, hfl]
      · left
        cases hfl : (g.longOptions.getD i defaultLongOption).Flag <;>
        · simp only [List.getD_eq_getElem?_getD] at h2 hfl ⊢
          simp [h1, h2, finishLong, hfl]
    · by_cases h2 : (g.longOptions.getD i defaultLongOption).HasArg = .NoArgument
      · right; left
        simp only [List.getD_eq_getElem?_getD] at h2 ⊢
        simp [h1, h2]
      · left
        cases hfl : (g.longOptions.getD i defaultLongOption).Flag <;>
        · simp only [List.getD_eq_getElem?_getD] at h2 hfl ⊢
          simp [h1, h2, finishLong, hfl]
  · intro hf hlen
    unfold Getopt.processLongOption
    simp only [hf, abbrevScan_candidates]
    rw [if_pos ⟨trivial, hlen⟩]

/-- Witness for C3: the exact-match part at a table where `one` is also a
proper prefix of `one-one`, and the ambiguity part at the distinguishable
table `veni, vedi, veci` with token `ve`. -/
theorem C3_abbreviation_resolution_witness :
    ((∃ o, ((⟨[str "p", str "--one"], ⟨.Permute, false, []⟩, C3table, 1, str "one", 1, 1⟩ :
        Getopt).processLongOption false (str "--")).2 = .opt o ∧ o.LongInd = 0) ∨
      ((⟨[str "p", str "--one"], ⟨.Permute, false, []⟩, C3table, 1, str "one", 1, 1⟩ :
        Getopt).processLongOption false (str "--")).2 =
        .error (.ArgumentNotAllowed (C3table.getD 0 defaultLongOption).Name (str "--")) ∨
      ((⟨[str "p", str "--one"], ⟨.Permute, false, []⟩, C3table, 1, str "one", 1, 1⟩ :
        Getopt).processLongOption false (str "--")).2 =
        .error (.ArgumentRequired (C3table.getD 0 defaultLongOption).Name (str "--"))) ∧
    ((⟨[str "p", str "--ve"],
        ⟨.Permute, false, [('u', .NoArgument), ('v', .NoArgument), ('w', .NoArgument)]⟩,
        [⟨str "veni", .NoArgument, none, 'u'⟩, ⟨str "vedi", .NoArgument, none, 'v'⟩,
         ⟨str "veci", .NoArgument, none, 'w'⟩], 1, str "ve", 1, 1⟩ :
        Getopt).processLongOption false (str "--") =
      (⟨[str "p", str "--ve"],
        ⟨.Permute, false, [('u', .NoArgument), ('v', .NoArgument), ('w', .NoArgument)]⟩,
        [⟨str "veni", .NoArgument, none, 'u'⟩, ⟨str "vedi", .NoArgument, none, 'v'⟩,
         ⟨str "veci", .NoArgument, none, 'w'⟩], 2, [], 1, 1⟩,
        .error (.AmbiguousOption (str "ve")
          [str "veni", str "vedi", str "veci"] (str "--")))) := by
  constructor
  · exact (C3_abbreviation_resolution _ false (str "--")).1 0 (by decide)
  · have h := (C3_abbreviation_resolution
      (⟨[str "p", str "--ve"],
        ⟨.Permute, false, [('u', .NoArgument), ('v', .NoArgument), ('w', .NoArgument)]⟩,
        [⟨str "veni", .NoArgument, none, 'u'⟩, ⟨str "vedi", .NoArgument, none, 'v'⟩,
         ⟨str "veci", .NoArgument, none, 'w'⟩], 1, str "ve", 1, 1⟩ : Getopt)
      false (str "--")).2.1 (by decide) (by decide)
    simpa using h

end getopt

namespace getopt

/-! ## Correctness of the block-swap `exchange` -/

/-- The slice `l[i:j]` of a Go slice, as a Lean list. -/
def seg (l : List Str) (i j : Nat) : List Str := (l.drop i).take (j - i)

theorem length_swapAt2 (l : List Str) (x y : Nat) :
    (swapAt2 l x y).length = l.length := by
  simp [swapAt2]

theorem getElem?_swapAt2 (l : List Str) (x y k : Nat) (hx : x < l.length)
    (hy : y < l.length) :
    (swapAt2 l x y)[k]? = if k = y then l[x]? else if k = x then l[y]? else l[k]? := by
  unfold swapAt2
  by_cases h1 : k = y
  · rw [h1, List.getElem?_set_self (by simpa using hy), if_pos rfl,
      List.getD_eq_getElem l [] hx, List.getElem?_eq_getElem hx]
  · rw [if_neg h1, List.getElem?_set_ne (fun h => h1 h.symm)]
    by_cases h2 : k = x
    · rw [h2, List.getElem?_set_self hx, if_pos rfl, List.getD_eq_getElem l [] hy,
        List.getElem?_eq_getElem hy]
    · rw [if_neg h2, List.getElem?_set_ne (fun h => h2 h.symm)]

theorem length_swapRange (l : List Str) (x y n : Nat) :
    (swapRange l x y n).length = l.length := by
  induction n generalizing l x y with
  | zero => rfl
  | succ n ih => simp [swapRange, ih, length_swapAt2]

theorem getElem?_swapRange (l : List Str) (x y n k : Nat) (hxy : x + n ≤ y)
    (hy : y + n ≤ l.length) :
    (swapRange l x y n)[k]? =
      if x ≤ k ∧ k < x + n then l[k - x + y]?
      else if y ≤ k ∧ k < y + n then l[k - y + x]?
      else l[k]? := by
  induction n generalizing l x y with
  | zero =>
    simp only [swapRange]
    rw [if_neg (by omega), if_neg (by omega)]
  | succ n ih =>
    have hx1 : x < l.length := by omega
    have hy1 : y < l.length := by omega
    simp only [swapRange]
    rw [ih (swapAt2 l x y) (x + 1) (y + 1) (by omega) (by rw [length_swapAt2]; omega)]
    by_cases c1 : x + 1 ≤ k ∧ k < x + 1 + n
    · rw [if_pos c1, if_pos (by omega : x ≤ k ∧ k < x + (n + 1)),
        getElem?_swapAt2 _ _ _ _ hx1 hy1, if_neg (by omega), if_neg (by omega)]
      congr 1
      omega
    · rw [if_neg c1]
      by_cases c2 : y + 1 ≤ k ∧ k < y + 1 + n
      · rw [if_pos c2, if_neg (by omega : ¬(x ≤ k ∧ k < x + (n + 1))),
          if_pos (by omega : y ≤ k ∧ k < y + (n + 1)),
          getElem?_swapAt2 _ _ _ _ hx1 hy1, if_neg (by omega), if_neg (by omega)]
        congr 1
        omega
      · rw [if_neg c2, getElem?_swapAt2 _ _ _ _ hx1 hy1]
        by_cases c3 : k = y
        · subst c3
          rw [if_pos rfl, if_neg (by omega), if_pos (by omega)]
          congr 1
          omega
        · rw [if_neg c3]
          by_cases c4 : k = x
          · subst c4
            rw [if_pos rfl, if_pos (by omega)]
            congr 1
            omega
          · rw [if_neg c4, if_neg (by omega), if_neg (by omega)]

theorem length_exchangeLoopF (l : List Str) (b m t fuel : Nat) :
    (exchangeLoopF l b m t fuel).length = l.length := by
  induction fuel generalizing l b t with
  | zero => rfl
  | succ fuel ih =>
    simp only [exchangeLoopF]
    split
    · split
      · rw [ih, length_swapRange]
      · rw [ih, length_swapRange]
    · rfl

theorem getElem?_exchangeLoopF (fuel : Nat) :
    ∀ (l : List Str) (b m t : Nat), b ≤ m → m ≤ t → t ≤ l.length → t - b ≤ fuel →
    ∀ k, (exchangeLoopF l b m t fuel)[k]? =
      if k < b then l[k]?
      else if k < b + (t - m) then l[k + m - b]?
      else if k < t then l[k - (t - m)]?
      else l[k]? := by
  induction fuel with
  | zero =>
    intro l b m t hb hm ht hf k
    have hbt : t = b := by omega
    have hmb : m = b := by omega
    subst hbt
    subst hmb
    simp only [exchangeLoopF, Nat.sub_self, Nat.add_zero, Nat.sub_zero]
    split_ifs <;> simp [Nat.add_sub_cancel]
  | succ fuel ih =>
    intro l b m t hb hm ht hf k
    simp only [exchangeLoopF]
    by_cases hcond : m < t ∧ b < m
    · rw [if_pos hcond]
      by_cases hshort : m - b < t - m
      · -- bottom segment shorter: swap [b, m) with [t-(m-b), t)
        rw [if_pos hshort]
        rw [ih (swapRange l b (t - (m - b)) (m - b)) b m (t - (m - b)) hb (by omega)
          (by rw [length_swapRange]; omega) (by omega) k]
        have hsw : ∀ j, (swapRange l b (t - (m - b)) (m - b))[j]? =
            if b ≤ j ∧ j < b + (m - b) then l[j - b + (t - (m - b))]?
            else if t - (m - b) ≤ j ∧ j < t - (m - b) + (m - b) then l[j - (t - (m - b)) + b]?
            else l[j]? := fun j =>
          getElem?_swapRange l b (t - (m - b)) (m - b) j (by omega) (by omega)
        by_cases c1 : k < b
        · rw [if_pos c1, if_pos c1, hsw, if_neg (by omega), if_neg (by omega)]
        · rw [if_neg c1, if_neg c1]
          by_cases c2 : k < b + (t - (m - b) - m)
          · rw [if_pos c2, if_pos (by omega : k < b + (t - m)), hsw,
              if_neg (by omega), if_neg (by omega)]
          · rw [if_neg c2]
            by_cases c3 : k < t - (m - b)
            · rw [if_pos c3, if_pos (by omega : k < b + (t - m)), hsw,
                if_pos (by omega)]
              congr 1
              omega
            · rw [if_neg c3, hsw]
              by_cases c4 : k < t
              · rw [if_pos c4,
                  if_neg (by omega : ¬(b ≤ k ∧ k < b + (m - b))),
                  if_pos (by omega : t - (m - b) ≤ k ∧ k < t - (m - b) + (m - b)),
                  if_neg (by omega : ¬k < b + (t - m))]
                congr 1
                omega
              · rw [if_neg c4,
                  if_neg (by omega : ¬(b ≤ k ∧ k < b + (m - b))),
                  if_neg (by omega : ¬(t - (m - b) ≤ k ∧ k < t - (m - b) + (m - b))),
                  if_neg (by omega : ¬k < b + (t - m))]
      · -- top segment shorter: swap [b, b + (t-m)) with [m, t)
        rw [if_neg hshort]
        rw [ih (swapRange l b m (t - m)) (b + (t - m)) m t (by omega) (by omega)
          (by rw [length_swapRange]; omega) (by omega) k]
        have hsw : ∀ j, (swapRange l b m (t - m))[j]? =
            if b ≤ j ∧ j < b + (t - m) then l[j - b + m]?
            else if m ≤ j ∧ j < m + (t - m) then l[j - m + b]?
            else l[j]? := fun j =>
          getElem?_swapRange l b m (t - m) j (by omega) (by omega)
        by_cases c1 : k < b
        · rw [if_pos (by omega : k < b + (t - m)), if_pos c1, hsw, if_neg (by omega),
            if_neg (by omega)]
        · rw [if_neg c1]
          by_cases c2 : k < b + (t - m)
          · rw [if_pos c2, if_pos c2, hsw, if_pos (by omega : b ≤ k ∧ k < b + (t - m))]
            congr 1
            omega
          · rw [if_neg c2, if_neg c2]
            by_cases c3 : k < b + (t - m) + (t - m)
            · rw [if_pos c3, hsw,
                if_neg (by omega : ¬(b ≤ k + m - (b + (t - m)) ∧
                  k + m - (b + (t - m)) < b + (t - m))),
                if_pos (by omega : m ≤ k + m - (b + (t - m)) ∧
                  k + m - (b + (t - m)) < m + (t - m)),
                if_pos (by omega : k < t)]
              congr 1
              omega
            · rw [if_neg c3]
              by_cases c4 : k < t
              · rw [if_pos c4, if_pos c4, hsw,
                  if_neg (by omega : ¬(b ≤ k - (t - m) ∧ k - (t - m) < b + (t - m))),
                  if_neg (by omega : ¬(m ≤ k - (t - m) ∧ k - (t - m) < m + (t - m)))]
              · rw [if_neg c4, if_neg c4, hsw,
                  if_neg (by omega : ¬(b ≤ k ∧ k < b + (t - m))),
                  if_neg (by omega : ¬(m ≤ k ∧ k < m + (t - m)))]
    · -- loop does not run: either m = t (empty top segment) or b = m (empty bottom)
      rw [if_neg hcond]
      by_cases c1 : k < b
      · rw [if_pos c1]
      · rw [if_neg c1]
        rcases Nat.lt_or_ge b m with hbm | hbm
        · -- then m = t
          have hd : t - m = 0 := by omega
          rw [hd, Nat.add_zero, if_neg c1, Nat.sub_zero]
          by_cases c2 : k < t
          · rw [if_pos c2]
          · rw [if_neg c2]
        · -- then b = m
          have hbm' : b = m := by omega
          by_cases c2 : k < b + (t - m)
          · rw [if_pos c2]
            congr 1
            omega
          · rw [if_neg c2, if_neg (by omega : ¬k < t)]

end getopt

namespace getopt

theorem length_exchangeLoop (l : List Str) (b m t : Nat) :
    (exchangeLoop l b m t).length = l.length :=
  length_exchangeLoopF l b m t (t - b)

/-- The exchange loop swaps the two adjacent blocks `[b, m)` and `[m, t)`
wholesale: the prefix before `b` and the suffix from `t` are untouched, and
each block keeps its internal order. -/
theorem exchangeLoop_eq (l : List Str) (b m t : Nat) (hb : b ≤ m) (hm : m ≤ t)
    (ht : t ≤ l.length) :
    exchangeLoop l b m t = l.take b ++ seg l m t ++ seg l b m ++ l.drop t := by
  apply List.ext_getElem?
  intro k
  rw [exchangeLoop, getElem?_exchangeLoopF (t - b) l b m t hb hm ht (Nat.le_refl _) k]
  have e1 : b ⊓ l.length = b := Nat.min_eq_left (by omega)
  have e2 : (t - m) ⊓ (l.length - m) = t - m := Nat.min_eq_left (by omega)
  have e3 : (m - b) ⊓ (l.length - b) = m - b := Nat.min_eq_left (by omega)
  simp only [seg, List.getElem?_append, List.getElem?_take, List.getElem?_drop,
    List.length_append, List.length_take, List.length_drop, e1, e2, e3]
  split_ifs <;> first | rfl | (congr 1; omega)

/-- `exchange` at the scanner level: assuming the invariant
`firstNonopt ≤ lastNonopt ≤ optind ≤ len(Args)`, it swaps the block of
skipped non-options `[firstNonopt, lastNonopt)` with the following block of
options `[lastNonopt, optind)` as blocks, touching nothing outside
`[firstNonopt, optind)`, and relocates the markers to the new place of the
non-options. -/
theorem exchange_spec (g : Getopt) (h1 : g.firstNonopt ≤ g.lastNonopt)
    (h2 : g.lastNonopt ≤ g.optind) (h3 : g.optind ≤ g.Args.length) :
    g.exchange.Args =
      g.Args.take g.firstNonopt ++ seg g.Args g.lastNonopt g.optind ++
        seg g.Args g.firstNonopt g.lastNonopt ++ g.Args.drop g.optind ∧
    g.exchange.firstNonopt = g.firstNonopt + (g.optind - g.lastNonopt) ∧
    g.exchange.lastNonopt = g.optind ∧
    g.exchange.optind = g.optind ∧ g.exchange.nextChar = g.nextChar ∧
    g.exchange.Args.length = g.Args.length :=
  ⟨exchangeLoop_eq g.Args g.firstNonopt g.lastNonopt g.optind h1 h2 h3, rfl, rfl, rfl, rfl,
    length_exchangeLoop g.Args g.firstNonopt g.lastNonopt g.optind⟩

end getopt

namespace getopt

/-! ## Per-phase characterization of one scan step -/

/-- Effect of `processLongOption` on the scanner state: it never touches
`Args` or the non-option markers; the `(nil, nil)` "not a long option"
return leaves the state unchanged; every other return clears the place
cursor and consumes one element, or two when a separate required argument
was taken (in which case that argument element was in range); the
`(nil, nil)` return only happens in long-only mode. -/
theorem processLongOption_spec (g : Getopt) (lo : Bool) (pfx : Str) :
    (g.processLongOption lo pfx).1.Args = g.Args ∧
    (g.processLongOption lo pfx).1.shortOptions = g.shortOptions ∧
    (g.processLongOption lo pfx).1.longOptions = g.longOptions ∧
    (g.processLongOption lo pfx).1.firstNonopt = g.firstNonopt ∧
    (g.processLongOption lo pfx).1.lastNonopt = g.lastNonopt ∧
    ((g.processLongOption lo pfx).2 = .notLong → (g.processLongOption lo pfx).1 = g) ∧
    ((g.processLongOption lo pfx).2 ≠ .notLong →
      (g.processLongOption lo pfx).1.nextChar = [] ∧
      ((g.processLongOption lo pfx).1.optind = g.optind + 1 ∨
        ((g.processLongOption lo pfx).1.optind = g.optind + 2 ∧
          g.optind + 1 < g.Args.length))) ∧
    (lo = false → (g.processLongOption lo pfx).2 ≠ .notLong) := by
  simp only [Getopt.processLongOption]
  split
  · exact ⟨rfl, rfl, rfl, rfl, rfl, fun h => by simp at h, fun _ => ⟨rfl, Or.inl rfl⟩,
      fun _ h => by simp at h⟩
  · split
    · split
      · exact ⟨rfl, rfl, rfl, rfl, rfl, fun h => by simp at h, fun _ => ⟨rfl, Or.inl rfl⟩,
          fun _ h => by simp at h⟩
      · rename_i hcond
        refine ⟨rfl, rfl, rfl, rfl, rfl, fun _ => rfl, fun h => absurd rfl h, fun hlo => ?_⟩
        exfalso
        rw [hlo] at hcond
        simp at hcond
    · split
      · split
        · exact ⟨rfl, rfl, rfl, rfl, rfl, fun h => by simp at h, fun _ => ⟨rfl, Or.inl rfl⟩,
            fun _ h => by simp at h⟩
        · unfold finishLong
          split <;>
            exact ⟨rfl, rfl, rfl, rfl, rfl, fun h => by simp at h, fun _ => ⟨rfl, Or.inl rfl⟩,
              fun _ h => by simp at h⟩
      · split
        · split
          · exact ⟨rfl, rfl, rfl, rfl, rfl, fun h => by simp at h, fun _ => ⟨rfl, Or.inl rfl⟩,
              fun _ h => by simp at h⟩
          · rename_i hbound
            unfold finishLong
            split <;>
              exact ⟨rfl, rfl, rfl, rfl, rfl, fun h => by simp at h,
                fun _ => ⟨rfl, Or.inr ⟨rfl, by omega⟩⟩, fun _ h => by simp at h⟩
        · unfold finishLong
          split <;>
            exact ⟨rfl, rfl, rfl, rfl, rfl, fun h => by simp at h, fun _ => ⟨rfl, Or.inl rfl⟩,
              fun _ h => by simp at h⟩

end getopt

namespace getopt

/-- `longToResult ∘ processLongOption` for the unconditional-return call
sites: the sentinel arises only from the long-only `(nil, nil)` case (state
unchanged); otherwise the place cursor is cleared and one or two elements
were consumed. -/
theorem longToResult_spec (gx : Getopt) (lo : Bool) (pfx : Str) :
    (longToResult (gx.processLongOption lo pfx)).1.Args = gx.Args ∧
    (longToResult (gx.processLongOption lo pfx)).1.shortOptions = gx.shortOptions ∧
    (longToResult (gx.processLongOption lo pfx)).1.longOptions = gx.longOptions ∧
    (longToResult (gx.processLongOption lo pfx)).1.firstNonopt = gx.firstNonopt ∧
    (longToResult (gx.processLongOption lo pfx)).1.lastNonopt = gx.lastNonopt ∧
    (longToResult (gx.processLongOption lo pfx)).2 ≠ .crash ∧
    (((longToResult (gx.processLongOption lo pfx)).2 = .done ∧
        (longToResult (gx.processLongOption lo pfx)).1 = gx) ∨
      ((longToResult (gx.processLongOption lo pfx)).2 ≠ .done ∧
        (longToResult (gx.processLongOption lo pfx)).1.nextChar = [] ∧
        ((longToResult (gx.processLongOption lo pfx)).1.optind = gx.optind + 1 ∨
          ((longToResult (gx.processLongOption lo pfx)).1.optind = gx.optind + 2 ∧
            gx.optind + 1 < gx.Args.length)))) ∧
    (lo = false → (longToResult (gx.processLongOption lo pfx)).2 ≠ .done) := by
  have hs := processLongOption_spec gx lo pfx
  rcases hpl : gx.processLongOption lo pfx with ⟨g2, r2⟩
  rw [hpl] at hs
  obtain ⟨hA, hSO, hLO, hF, hL, hNL, hCons, hFalse⟩ := hs
  cases r2 with
  | notLong =>
    have hg2 : g2 = gx := hNL rfl
    subst hg2
    refine ⟨hA, hSO, hLO, hF, hL, by simp [longToResult], Or.inl ⟨rfl, rfl⟩, fun hf => ?_⟩
    exact absurd rfl (hFalse hf)
  | opt o =>
    obtain ⟨hn, ho⟩ := hCons (by simp)
    exact ⟨hA, hSO, hLO, hF, hL, by simp [longToResult],
      Or.inr ⟨by simp [longToResult], hn, ho⟩, fun _ => by simp [longToResult]⟩
  | error e =>
    obtain ⟨hn, ho⟩ := hCons (by simp)
    exact ⟨hA, hSO, hLO, hF, hL, by simp [longToResult],
      Or.inr ⟨by simp [longToResult], hn, ho⟩, fun _ => by simp [longToResult]⟩

end getopt

namespace getopt

/-- What one pass of the short-option character processing does to the
state: `Args`, the option tables and the non-option markers are untouched;
the cursor stays within bounds; the call never returns the sentinel or
crashes; and either the place cursor strictly shrinks with the element
cursor unchanged, or the element cursor strictly advances and the place
cursor is cleared. -/
def ShortStep (g g' : Getopt) (r : GetoptResult) : Prop :=
  g'.Args = g.Args ∧ g'.shortOptions = g.shortOptions ∧ g'.longOptions = g.longOptions ∧
  g'.firstNonopt = g.firstNonopt ∧ g'.lastNonopt = g.lastNonopt ∧
  g'.optind ≤ g.Args.length ∧ r ≠ .done ∧ r ≠ .crash ∧
  ((g'.optind = g.optind ∧ g'.nextChar ≠ [] ∧ g'.nextChar.length < g.nextChar.length) ∨
    (g.optind < g'.optind ∧ g'.nextChar = []))

theorem shortPhase_spec (g : Getopt) (hlt : g.optind < g.Args.length)
    (hnc : g.nextChar ≠ []) :
    ShortStep g (g.shortPhase).1 (g.shortPhase).2 := by
  obtain ⟨c, rest, hcr⟩ := List.exists_cons_of_ne_nil hnc
  have hWbranch : ∀ gx : Getopt, gx.Args = g.Args → gx.shortOptions = g.shortOptions →
      gx.longOptions = g.longOptions → gx.firstNonopt = g.firstNonopt →
      gx.lastNonopt = g.lastNonopt → g.optind ≤ gx.optind → gx.optind < g.Args.length →
      ShortStep g (longToResult (gx.processLongOption false (str "-W "))).1
        (longToResult (gx.processLongOption false (str "-W "))).2 := by
    intro gx hA hSO hLO hF hL hle hxlt
    have hlen2 : gx.Args.length = g.Args.length := by rw [hA]
    obtain ⟨wA, wSO, wLO, wF, wL, wCr, wCase, wDone⟩ := longToResult_spec gx false (str "-W ")
    rcases wCase with ⟨hd, _⟩ | ⟨_, hn, ho | ⟨ho, hb⟩⟩
    · exact absurd hd (wDone rfl)
    · exact ⟨wA.trans hA, wSO.trans hSO, wLO.trans hLO, wF.trans hF, wL.trans hL,
        by rw [ho]; omega, wDone rfl, wCr, Or.inr ⟨by omega, hn⟩⟩
    · exact ⟨wA.trans hA, wSO.trans hSO, wLO.trans hLO, wF.trans hF, wL.trans hL,
        by rw [ho]; omega, wDone rfl, wCr, Or.inr ⟨by omega, hn⟩⟩
  by_cases hre : rest.isEmpty
  · -- the consumed character was the element's last: optind advances
    have hre' : rest = [] := List.isEmpty_iff.mp hre
    subst hre'
    by_cases h1 : g.shortOptions.HasOpt c
    case neg =>
      simp only [Getopt.shortPhase, hcr, List.isEmpty_nil, if_true, h1, Bool.not_false,
        if_pos]
      exact ⟨rfl, rfl, rfl, rfl, rfl, hlt, by simp, by simp, Or.inr ⟨Nat.lt_succ_self _, rfl⟩⟩
    case pos =>
      by_cases h2 : c = 'W' ∧ g.shortOptions.W = true ∧ 0 < g.longOptions.length
      · obtain ⟨hc2, hW2, hL2⟩ := h2
        subst hc2
        by_cases h3 : g.optind + 1 = g.Args.length
        · simp [Getopt.shortPhase, hcr, h1, hW2, hL2, h3]
          exact ⟨rfl, rfl, rfl, rfl, rfl, Nat.le_refl _, by simp, by simp,
            Or.inr ⟨hlt, rfl⟩⟩
        · have h4 : ¬g.Args.length < g.optind + 1 := by omega
          simp [Getopt.shortPhase, hcr, h1, hW2, hL2, h3, h4]
          exact hWbranch _ rfl rfl rfl rfl rfl (Nat.le_succ _)
            (by omega : g.optind + 1 < g.Args.length)
      · rcases hlk : (lookupOpt g.shortOptions.Opts c).getD .NoArgument with _ | _ | _
        · simp [Getopt.shortPhase, hcr, h1, h2, hlk]
          exact ⟨rfl, rfl, rfl, rfl, rfl, hlt, by simp, by simp,
            Or.inr ⟨Nat.lt_succ_self _, rfl⟩⟩
        · by_cases h3 : g.optind + 1 = g.Args.length
          · simp [Getopt.shortPhase, hcr, h1, h2, h3, hlk]
            exact ⟨rfl, rfl, rfl, rfl, rfl, Nat.le_refl _, by simp, by simp,
              Or.inr ⟨hlt, rfl⟩⟩
          · have h4 : ¬g.Args.length < g.optind + 1 := by omega
            simp [Getopt.shortPhase, hcr, h1, h2, h3, h4, hlk]
            exact ⟨rfl, rfl, rfl, rfl, rfl, (by omega : g.optind + 2 ≤ g.Args.length),
              by simp, by simp, Or.inr ⟨(by omega : g.optind < g.optind + 2), rfl⟩⟩
        · simp [Getopt.shortPhase, hcr, h1, h2, hlk]
          exact ⟨rfl, rfl, rfl, rfl, rfl, hlt, by simp, by simp,
            Or.inr ⟨Nat.lt_succ_self _, rfl⟩⟩
  · -- more characters remain in the element
    have hre' : ¬rest = [] := fun h => by rw [h] at hre; exact hre rfl
    have hlen : rest.length < (g.nextChar).length := by rw [hcr]; simp
    by_cases h1 : g.shortOptions.HasOpt c
    case neg =>
      simp [Getopt.shortPhase, hcr, hre, h1]
      exact ⟨rfl, rfl, rfl, rfl, rfl, Nat.le_of_lt hlt, by simp, by simp,
        Or.inl ⟨rfl, hre', hlen⟩⟩
    case pos =>
      by_cases h2 : c = 'W' ∧ g.shortOptions.W = true ∧ 0 < g.longOptions.length
      · obtain ⟨hc2, hW2, hL2⟩ := h2
        subst hc2
        simp [Getopt.shortPhase, hcr, hre, hre', h1, hW2, hL2]
        exact hWbranch _ rfl rfl rfl rfl rfl (Nat.le_refl _) hlt
      · rcases hlk : (lookupOpt g.shortOptions.Opts c).getD .NoArgument with _ | _ | _
        · simp [Getopt.shortPhase, hcr, hre, h1, h2, hlk]
          exact ⟨rfl, rfl, rfl, rfl, rfl, Nat.le_of_lt hlt, by simp, by simp,
            Or.inl ⟨rfl, hre', hlen⟩⟩
        · simp [Getopt.shortPhase, hcr, hre, hre', h1, h2, hlk]
          exact ⟨rfl, rfl, rfl, rfl, rfl, hlt, by simp, by simp,
            Or.inr ⟨Nat.lt_succ_self _, rfl⟩⟩
        · simp [Getopt.shortPhase, hcr, hre, hre', h1, h2, hlk]
          exact ⟨rfl, rfl, rfl, rfl, rfl, hlt, by simp, by simp,
            Or.inr ⟨Nat.lt_succ_self _, rfl⟩⟩

end getopt

namespace getopt

theorem exchange_drop (g : Getopt) (h1 : g.firstNonopt ≤ g.lastNonopt)
    (h2 : g.lastNonopt ≤ g.optind) (h3 : g.optind ≤ g.Args.length) :
    g.exchange.Args.drop g.optind = g.Args.drop g.optind := by
  rw [(exchange_spec g h1 h2 h3).1]
  have hlen : (g.Args.take g.firstNonopt ++ seg g.Args g.lastNonopt g.optind ++
      seg g.Args g.firstNonopt g.lastNonopt).length = g.optind := by
    simp [seg]
    omega
  calc (g.Args.take g.firstNonopt ++ seg g.Args g.lastNonopt g.optind ++
        seg g.Args g.firstNonopt g.lastNonopt ++ g.Args.drop g.optind).drop g.optind
      = (g.Args.take g.firstNonopt ++ seg g.Args g.lastNonopt g.optind ++
        seg g.Args g.firstNonopt g.lastNonopt ++ g.Args.drop g.optind).drop
          (g.Args.take g.firstNonopt ++ seg g.Args g.lastNonopt g.optind ++
            seg g.Args g.firstNonopt g.lastNonopt).length := by rw [hlen]
    _ = g.Args.drop g.optind := List.drop_left _ _

theorem clampNonopts_spec (g : Getopt) (hfl : g.firstNonopt ≤ g.lastNonopt) :
    g.clampNonopts.Args = g.Args ∧ g.clampNonopts.shortOptions = g.shortOptions ∧
    g.clampNonopts.longOptions = g.longOptions ∧ g.clampNonopts.nextChar = g.nextChar ∧
    g.clampNonopts.optind = g.optind ∧
    g.clampNonopts.firstNonopt ≤ g.clampNonopts.lastNonopt ∧
    g.clampNonopts.lastNonopt ≤ g.optind ∧
    g.clampNonopts.lastNonopt ≤ g.lastNonopt := by
  simp only [Getopt.clampNonopts]
  split
  next h1 =>
    split
    next h2 =>
      exact ⟨rfl, rfl, rfl, rfl, rfl, Nat.le_refl _, Nat.le_refl _, Nat.le_of_lt h1⟩
    next h2 =>
      exact ⟨rfl, rfl, rfl, rfl, rfl, Nat.le_of_not_lt h2, Nat.le_refl _, Nat.le_of_lt h1⟩
  next h1 =>
    split
    next h2 =>
      exact ⟨rfl, rfl, rfl, rfl, rfl, Nat.le_of_lt (Nat.lt_of_lt_of_le h2 hfl),
        Nat.le_of_not_lt h1, Nat.le_refl _⟩
    next h2 =>
      exact ⟨rfl, rfl, rfl, rfl, rfl, hfl, Nat.le_of_not_lt h1, Nat.le_refl _⟩

theorem length_takeWhile_le {p : Str → Bool} (l : List Str) :
    (l.takeWhile p).length ≤ l.length :=
  List.Sublist.length_le (List.takeWhile_sublist p)

theorem skipNonoptions_spec (args : List Str) (i : Nat) (hi : i ≤ args.length) :
    i ≤ skipNonoptions args i ∧ skipNonoptions args i ≤ args.length := by
  unfold skipNonoptions
  constructor
  · omega
  · have := length_takeWhile_le (p := nonoption) (args.drop i)
    rw [List.length_drop] at this
    omega

theorem permutePhase_spec (g : Getopt) (hfl : g.firstNonopt ≤ g.lastNonopt)
    (hlo : g.lastNonopt ≤ g.optind) (ho : g.optind ≤ g.Args.length) :
    g.permutePhase.Args.length = g.Args.length ∧
    g.permutePhase.shortOptions = g.shortOptions ∧
    g.permutePhase.longOptions = g.longOptions ∧
    g.permutePhase.nextChar = g.nextChar ∧
    g.permutePhase.firstNonopt ≤ g.permutePhase.lastNonopt ∧
    g.permutePhase.lastNonopt ≤ g.permutePhase.optind ∧
    g.optind ≤ g.permutePhase.optind ∧
    g.permutePhase.optind ≤ g.Args.length ∧
    g.permutePhase.Args.drop g.optind = g.Args.drop g.optind := by
  simp only [Getopt.permutePhase]
  split
  case isFalse => exact ⟨rfl, rfl, rfl, rfl, hfl, hlo, Nat.le_refl _, ho, rfl⟩
  case isTrue =>
    split
    next hc1 =>
      have hLen : g.exchange.Args.length = g.Args.length :=
        length_exchangeLoop g.Args g.firstNonopt g.lastNonopt g.optind
      have hsk := skipNonoptions_spec g.exchange.Args g.optind (by rw [hLen]; exact ho)
      exact ⟨hLen, rfl, rfl, rfl,
        Nat.le_trans
          (by omega : g.firstNonopt + (g.optind - g.lastNonopt) ≤ g.optind) hsk.1,
        Nat.le_refl _, hsk.1, Nat.le_trans hsk.2 (Nat.le_of_eq hLen),
        exchange_drop g hfl hlo ho⟩
    next hc1 =>
      split
      next hc2 =>
        have hsk := skipNonoptions_spec g.Args g.optind ho
        exact ⟨rfl, rfl, rfl, rfl, hsk.1, Nat.le_refl _, hsk.1, hsk.2, rfl⟩
      next hc2 =>
        have hsk := skipNonoptions_spec g.Args g.optind ho
        exact ⟨rfl, rfl, rfl, rfl, Nat.le_trans (Nat.le_trans hfl hlo) hsk.1,
          Nat.le_refl _, hsk.1, hsk.2, rfl⟩

theorem dashDashPhase_spec (g : Getopt) (hfl : g.firstNonopt ≤ g.lastNonopt)
    (hlo : g.lastNonopt ≤ g.optind) (ho : g.optind ≤ g.Args.length) :
    g.dashDashPhase.Args.length = g.Args.length ∧
    g.dashDashPhase.shortOptions = g.shortOptions ∧
    g.dashDashPhase.longOptions = g.longOptions ∧
    g.dashDashPhase.nextChar = g.nextChar ∧
    g.dashDashPhase.firstNonopt ≤ g.dashDashPhase.lastNonopt ∧
    g.dashDashPhase.lastNonopt ≤ g.dashDashPhase.optind ∧
    g.optind ≤ g.dashDashPhase.optind ∧
    g.dashDashPhase.optind ≤ g.Args.length ∧
    (g.dashDashPhase = g ∨ g.dashDashPhase.optind = g.Args.length) := by
  simp only [Getopt.dashDashPhase]
  split
  case isFalse => exact ⟨rfl, rfl, rfl, rfl, hfl, hlo, Nat.le_refl _, ho, Or.inl rfl⟩
  case isTrue =>
    rename_i hx
    have hlt : g.optind < g.Args.length := by
      rcases hx with ⟨hne, _⟩
      omega
    split
    next hc1 =>
      have hex := exchange_spec { g with optind := g.optind + 1 } hfl
        (by omega : g.lastNonopt ≤ g.optind + 1)
        (by omega : g.optind + 1 ≤ g.Args.length)
      have hLen : ({ g with optind := g.optind + 1 } : Getopt).exchange.Args.length =
          g.Args.length := hex.2.2.2.2.2
      have h5 : ({ g with optind := g.optind + 1 } : Getopt).exchange.firstNonopt ≤
          ({ g with optind := g.optind + 1 } : Getopt).exchange.Args.length := by
        rw [hex.2.1, hLen]
        exact (by omega : g.firstNonopt + (g.optind + 1 - g.lastNonopt) ≤ g.Args.length)
      exact ⟨hLen, rfl, rfl, rfl, h5, Nat.le_refl _,
        Nat.le_trans (Nat.le_of_lt hlt) (Nat.le_of_eq hLen.symm),
        Nat.le_of_eq hLen, Or.inr hLen⟩
    next hc1 =>
      split
      next hc2 =>
        exact ⟨rfl, rfl, rfl, rfl, (by omega : g.optind + 1 ≤ g.Args.length),
          Nat.le_refl _, Nat.le_of_lt hlt, Nat.le_refl _, Or.inr rfl⟩
      next hc2 =>
        have hl2 : g.lastNonopt = g.optind + 1 := by
          rcases not_and_or.mp hc1 with h | h
          · exact absurd (not_not.mp h) hc2
          · exact not_not.mp h
        exact ⟨rfl, rfl, rfl, rfl, (by omega : g.firstNonopt ≤ g.Args.length),
          Nat.le_refl _, Nat.le_of_lt hlt, Nat.le_refl _, Or.inr rfl⟩

theorem endCheck_spec (g : Getopt) (hfl : g.firstNonopt ≤ g.lastNonopt)
    (hlo : g.lastNonopt ≤ g.optind) (ho : g.optind ≤ g.Args.length) :
    (g.endCheck.2 = none → g.endCheck.1 = g ∧ g.optind < g.Args.length) ∧
    (∀ r, g.endCheck.2 = some r → r = .done ∧
      g.endCheck.1.Args = g.Args ∧ g.endCheck.1.shortOptions = g.shortOptions ∧
      g.endCheck.1.longOptions = g.longOptions ∧ g.endCheck.1.nextChar = g.nextChar ∧
      g.endCheck.1.firstNonopt = g.firstNonopt ∧ g.endCheck.1.lastNonopt = g.lastNonopt ∧
      g.endCheck.1.optind ≤ g.Args.length ∧
      (g.endCheck.1.lastNonopt ≤ g.endCheck.1.optind ∨
        g.endCheck.1.firstNonopt = g.endCheck.1.optind)) := by
  unfold Getopt.endCheck
  split
  next h1 =>
    split
    next h2 =>
      refine ⟨fun h => by simp at h, fun r hr => ?_⟩
      have hr2 : GetoptResult.done = r := by simpa using hr
      subst hr2
      exact ⟨rfl, rfl, rfl, rfl, rfl, rfl, rfl,
        Nat.le_trans hfl (Nat.le_trans hlo ho), Or.inr rfl⟩
    next h2 =>
      refine ⟨fun h => by simp at h, fun r hr => ?_⟩
      have hr2 : GetoptResult.done = r := by simpa using hr
      subst hr2
      exact ⟨rfl, rfl, rfl, rfl, rfl, rfl, rfl, ho, Or.inl hlo⟩
  next h1 =>
    exact ⟨fun _ => ⟨rfl, by omega⟩, fun r hr => by simp at hr⟩

theorem advanceArgv_spec (g : Getopt) (hfl : g.firstNonopt ≤ g.lastNonopt)
    (ho : g.optind ≤ g.Args.length) :
    g.advanceArgv.1.Args.length = g.Args.length ∧
    g.advanceArgv.1.shortOptions = g.shortOptions ∧
    g.advanceArgv.1.longOptions = g.longOptions ∧
    g.advanceArgv.1.nextChar = g.nextChar ∧
    g.advanceArgv.1.firstNonopt ≤ g.advanceArgv.1.lastNonopt ∧
    g.advanceArgv.1.lastNonopt ≤ g.Args.length ∧
    g.advanceArgv.1.optind ≤ g.Args.length ∧
    (g.advanceArgv.2 = none →
      g.advanceArgv.1.lastNonopt ≤ g.advanceArgv.1.optind ∧
      g.advanceArgv.1.optind < g.Args.length ∧ g.optind ≤ g.advanceArgv.1.optind ∧
      g.advanceArgv.1.Args.drop g.optind = g.Args.drop g.optind) ∧
    (∀ r, g.advanceArgv.2 = some r → r = .done ∧
      (g.advanceArgv.1.lastNonopt ≤ g.advanceArgv.1.optind ∨
        g.advanceArgv.1.firstNonopt = g.advanceArgv.1.optind)) := by
  obtain ⟨cA, cSO, cLO, cN, cO, cFL, cLo, cLl⟩ := clampNonopts_spec g hfl
  obtain ⟨pA, pSO, pLO, pN, pFL, pLo, pO1, pO2, pD⟩ :=
    permutePhase_spec g.clampNonopts cFL (by rw [cO]; exact cLo) (by rw [cO, cA]; exact ho)
  obtain ⟨dA, dSO, dLO, dN, dFL, dLo, dO1, dO2, dOr⟩ :=
    dashDashPhase_spec g.clampNonopts.permutePhase pFL pLo (by rw [pA]; exact pO2)
  obtain ⟨eNone, eSome⟩ :=
    endCheck_spec g.clampNonopts.permutePhase.dashDashPhase dFL dLo (by rw [dA]; exact dO2)
  have hAl : g.clampNonopts.permutePhase.dashDashPhase.Args.length = g.Args.length := by
    rw [dA, pA, cA]
  have hO2 : g.clampNonopts.permutePhase.dashDashPhase.optind ≤ g.Args.length := by
    have h := dO2
    rw [pA, cA] at h
    exact h
  simp only [Getopt.advanceArgv]
  cases hoe : g.clampNonopts.permutePhase.dashDashPhase.endCheck.2 with
  | none =>
    obtain ⟨hge, hlt⟩ := eNone hoe
    rw [hge]
    have hdg : g.clampNonopts.permutePhase.dashDashPhase = g.clampNonopts.permutePhase := by
      rcases dOr with h | h
      · exact h
      · exfalso
        rw [dA] at hlt
        omega
    refine ⟨hAl, by rw [dSO, pSO, cSO], by rw [dLO, pLO, cLO], by rw [dN, pN, cN],
      dFL, Nat.le_trans dLo hO2, hO2,
      fun _ => ⟨dLo, by rw [← hAl]; exact hlt, ?_, ?_⟩,
      fun r hr => by simp at hr⟩
    · rw [hdg, ← cO]
      exact pO1
    · rw [hdg, ← cO, pD, cA]
  | some r0 =>
    obtain ⟨hrd, heA, heSO, heLO, heN, heF, heL, heO, heOr⟩ := eSome r0 hoe
    refine ⟨by rw [heA]; exact hAl, by rw [heSO, dSO, pSO, cSO],
      by rw [heLO, dLO, pLO, cLO], by rw [heN, dN, pN, cN],
      by rw [heF, heL]; exact dFL, by rw [heL]; exact Nat.le_trans dLo hO2,
      Nat.le_trans heO (Nat.le_of_eq hAl),
      fun h => by simp at h, fun r hr => ?_⟩
    have hr2 : r0 = r := by injection hr
    subst hr2
    exact ⟨hrd, heOr⟩

end getopt

namespace getopt

/-- Remaining-work helper: total length (plus one per element) of the
ARGV elements from index `i` on. -/
def sumTail (args : List Str) (i : Nat) : Nat :=
  ((args.drop i).map (fun s => s.length + 1)).sum

/-- Remaining work of a scanner state: everything from the cursor on, plus
the pending place-cursor remainder when one is active. -/
def remWork (g : Getopt) : Nat :=
  if g.nextChar.isEmpty then sumTail g.Args g.optind
  else g.nextChar.length + sumTail g.Args (g.optind + 1)

/-- States reachable by the scanner: the non-option markers are ordered
and in range, the cursor is in range, and an active place cursor implies
the element under the cursor exists with the markers behind it. -/
def Sane (g : Getopt) : Prop :=
  g.firstNonopt ≤ g.lastNonopt ∧ g.lastNonopt ≤ g.Args.length ∧
  g.optind ≤ g.Args.length ∧
  (g.nextChar ≠ [] → g.optind < g.Args.length ∧ g.lastNonopt ≤ g.optind)

theorem sumTail_succ (args : List Str) (i : Nat) (h : i < args.length) :
    sumTail args i = (args.getD i []).length + 1 + sumTail args (i + 1) := by
  unfold sumTail
  rw [List.drop_eq_getElem_cons h, List.map_cons, List.sum_cons,
    List.getD_eq_getElem args [] h]

theorem sumTail_succ_le (args : List Str) (i : Nat) :
    sumTail args (i + 1) ≤ sumTail args i := by
  by_cases h : i < args.length
  · rw [sumTail_succ args i h]
    omega
  · unfold sumTail
    rw [List.drop_eq_nil_of_le (by omega), List.drop_eq_nil_of_le (by omega)]

theorem sumTail_mono (args : List Str) {i j : Nat} (h : i ≤ j) :
    sumTail args j ≤ sumTail args i := by
  induction j with
  | zero =>
    have hz : i = 0 := Nat.le_zero.mp h
    subst hz
    exact Nat.le_refl _
  | succ n ih =>
    rcases Nat.lt_or_ge i (n + 1) with h2 | h2
    · exact Nat.le_trans (sumTail_succ_le args n) (ih (by omega))
    · have hz : i = n + 1 := by omega
      subst hz
      exact Nat.le_refl _

theorem sumTail_congr {a b : List Str} (i : Nat) (h : a.drop i = b.drop i) :
    sumTail a i = sumTail b i := by
  unfold sumTail
  rw [h]

end getopt

namespace getopt

/-- One short-option character step from a sane place-cursor state:
tables and markers are untouched, the state stays sane with the markers
behind the cursor, the call never returns the sentinel or crashes, and the
remaining work strictly decreases. -/
theorem shortPhase_step (s : Getopt) (hS : Sane s) (hls : s.lastNonopt ≤ s.optind)
    (hlt : s.optind < s.Args.length) (hnc : s.nextChar ≠ []) :
    Sane (s.shortPhase).1 ∧ (s.shortPhase).1.Args = s.Args ∧
    (s.shortPhase).1.shortOptions = s.shortOptions ∧
    (s.shortPhase).1.longOptions = s.longOptions ∧
    (s.shortPhase).1.firstNonopt = s.firstNonopt ∧
    (s.shortPhase).1.lastNonopt = s.lastNonopt ∧
    (s.shortPhase).1.lastNonopt ≤ (s.shortPhase).1.optind ∧
    (s.shortPhase).2 ≠ .done ∧ (s.shortPhase).2 ≠ .crash ∧
    remWork (s.shortPhase).1 < remWork s := by
  obtain ⟨hA, hSO, hLO, hF, hL, hOl, hnd, hncr, hcase⟩ := shortPhase_spec s hlt hnc
  obtain ⟨hS1, hS2, hS3, hS4⟩ := hS
  have hrs : remWork s = s.nextChar.length + sumTail s.Args (s.optind + 1) := by
    unfold remWork
    rw [if_neg (by simpa using hnc)]
  rcases hcase with ⟨ho, hne, hlen⟩ | ⟨hgt, hn0⟩
  · have hro : remWork (s.shortPhase).1 =
        (s.shortPhase).1.nextChar.length + sumTail s.Args (s.optind + 1) := by
      unfold remWork
      rw [if_neg (by simpa using hne), hA, ho]
    refine ⟨⟨?_, ?_, ?_, ?_⟩, hA, hSO, hLO, hF, hL, ?_, hnd, hncr, ?_⟩
    · rw [hF, hL]
      exact hS1
    · rw [hL, hA]
      exact hS2
    · rw [hA]
      exact hOl
    · intro _
      rw [ho, hA, hL]
      exact ⟨hlt, hls⟩
    · rw [hL, ho]
      exact hls
    · rw [hro, hrs]
      omega
  · have hro : remWork (s.shortPhase).1 = sumTail s.Args (s.shortPhase).1.optind := by
      unfold remWork
      rw [if_pos (by simp [hn0]), hA]
    refine ⟨⟨?_, ?_, ?_, ?_⟩, hA, hSO, hLO, hF, hL, ?_, hnd, hncr, ?_⟩
    · rw [hF, hL]
      exact hS1
    · rw [hL, hA]
      exact hS2
    · rw [hA]
      exact hOl
    · intro hx
      exact absurd hn0 hx
    · rw [hL]
      omega
    · rw [hro, hrs]
      have h1 : sumTail s.Args (s.shortPhase).1.optind ≤ sumTail s.Args (s.optind + 1) :=
        sumTail_mono s.Args (by omega)
      have h2 : 0 < s.nextChar.length := List.length_pos.mpr hnc
      omega

/-- Entering short-option processing of the element under the cursor from
a sane state with the markers behind the cursor: tables and markers are
untouched, the result is sane, never the sentinel, and unless the Go code
would panic the remaining work drops strictly below the tail work at the
cursor. -/
theorem shortEntry_spec (s : Getopt) (hS : Sane s) (hls : s.lastNonopt ≤ s.optind) :
    Sane (s.shortEntry).1 ∧ (s.shortEntry).1.Args = s.Args ∧
    (s.shortEntry).1.shortOptions = s.shortOptions ∧
    (s.shortEntry).1.longOptions = s.longOptions ∧
    (s.shortEntry).1.firstNonopt = s.firstNonopt ∧
    (s.shortEntry).1.lastNonopt = s.lastNonopt ∧
    (s.shortEntry).1.lastNonopt ≤ (s.shortEntry).1.optind ∧
    (s.shortEntry).2 ≠ .done ∧
    ((s.shortEntry).2 ≠ .crash → remWork (s.shortEntry).1 < sumTail s.Args s.optind) := by
  obtain ⟨hS1, hS2, hS3, hS4⟩ := hS
  simp only [Getopt.shortEntry]
  split
  next hcr =>
    exact ⟨⟨hS1, hS2, hS3, hS4⟩, rfl, rfl, rfl, rfl, rfl, hls, by simp,
      fun hc => absurd rfl hc⟩
  next hcr =>
    split
    next hlen1 =>
      exact ⟨⟨hS1, hS2, hS3, hS4⟩, rfl, rfl, rfl, rfl, rfl, hls, by simp,
        fun hc => absurd rfl hc⟩
    next hlen1 =>
      have hltx : s.optind < s.Args.length := by omega
      by_cases hnil : (s.Args.getD s.optind []).drop 1 = []
      · rw [hnil]
        exact ⟨⟨hS1, hS2, hS3, fun h => absurd rfl h⟩, rfl, rfl, rfl, rfl, rfl, hls,
          fun h => GetoptResult.noConfusion h, fun hc => absurd rfl hc⟩
      · have hx := shortPhase_step
          ({ s with nextChar := (s.Args.getD s.optind []).drop 1 })
          ⟨hS1, hS2, hS3, fun _ => ⟨hltx, hls⟩⟩ hls hltx hnil
        obtain ⟨xS, xA, xSO, xLO, xF, xL, xls, xnd, xncr, xrem⟩ := hx
        have hrs : remWork ({ s with nextChar := (s.Args.getD s.optind []).drop 1 } :
            Getopt) = (s.Args.getD s.optind []).length - 1 + sumTail s.Args (s.optind + 1) := by
          unfold remWork
          rw [if_neg (by simpa using hnil)]
          simp
        have hsucc := sumTail_succ s.Args s.optind hltx
        refine ⟨xS, xA, xSO, xLO, xF, xL, xls, xnd, fun _ => ?_⟩
        rw [hrs] at xrem
        omega

end getopt

namespace getopt

/-- One full call from a sane state: the state stays sane, the vector
length is preserved, the markers land behind the cursor except at the
sentinel rewind (where the cursor lands on `firstNonopt`), and every
result other than the sentinel or a Go panic strictly decreases the
remaining work. -/
theorem getoptInternalR_spec (g : Getopt) (lo : Bool) (hS : Sane g) :
    Sane (g.getoptInternalR lo).1 ∧
    (g.getoptInternalR lo).1.Args.length = g.Args.length ∧
    ((g.getoptInternalR lo).1.lastNonopt ≤ (g.getoptInternalR lo).1.optind ∨
      ((g.getoptInternalR lo).2 = .done ∧
        (g.getoptInternalR lo).1.firstNonopt = (g.getoptInternalR lo).1.optind)) ∧
    ((g.getoptInternalR lo).2 ≠ .done → (g.getoptInternalR lo).2 ≠ .crash →
      remWork (g.getoptInternalR lo).1 < remWork g) := by
  obtain ⟨hS1, hS2, hS3, hS4⟩ := hS
  simp only [Getopt.getoptInternalR]
  split
  next hempty0 =>
    have hq : g.lastNonopt ≤ g.optind := by omega
    exact ⟨⟨hS1, hS2, hS3, hS4⟩, rfl, Or.inl hq, fun hd _ => absurd rfl hd⟩
  next hne0 =>
    split
    next hempty =>
      have hnc0 : g.nextChar = [] := List.isEmpty_iff.mp hempty
      have hremg : remWork g = sumTail g.Args g.optind := by
        unfold remWork
        rw [if_pos hempty]
      have hAdv := advanceArgv_spec g hS1 hS3
      rcases hadv : g.advanceArgv with ⟨g1, o⟩
      rw [hadv] at hAdv
      obtain ⟨aL, aSO, aLO, aN, aFL, aLl, aO, aNone, aSome⟩ := hAdv
      have aL' : g1.Args.length = g.Args.length := aL
      have aN' : g1.nextChar = g.nextChar := aN
      have aFL' : g1.firstNonopt ≤ g1.lastNonopt := aFL
      have aLl' : g1.lastNonopt ≤ g.Args.length := aLl
      have aO' : g1.optind ≤ g.Args.length := aO
      cases o with
      | some r =>
        obtain ⟨hrd, hOr⟩ := aSome r rfl
        have hrd' : r = GetoptResult.done := hrd
        have hOr' : g1.lastNonopt ≤ g1.optind ∨ g1.firstNonopt = g1.optind := hOr
        subst hrd'
        have hsl : g1.lastNonopt ≤ g1.Args.length := by omega
        have hso : g1.optind ≤ g1.Args.length := by omega
        refine ⟨⟨aFL', hsl, hso, fun h => absurd (aN'.trans hnc0) h⟩, aL',
          hOr'.imp id (fun h => ⟨rfl, h⟩), fun hd _ => absurd rfl hd⟩
      | none =>
        obtain ⟨hl1, hlt1, hgo1, hdrop1⟩ := aNone rfl
        have hl1 : g1.lastNonopt ≤ g1.optind := hl1
        have hlt1 : g1.optind < g.Args.length := hlt1
        have hgo1 : g.optind ≤ g1.optind := hgo1
        have hdrop1 : g1.Args.drop g.optind = g.Args.drop g.optind := hdrop1
        have hlt1' : g1.optind < g1.Args.length := by omega
        have hbase : sumTail g1.Args g1.optind ≤ remWork g := by
          rw [hremg]
          calc sumTail g1.Args g1.optind ≤ sumTail g1.Args g.optind :=
                sumTail_mono _ hgo1
            _ = sumTail g.Args g.optind := sumTail_congr _ hdrop1
        have hsucc1 : sumTail g1.Args g1.optind =
            (g1.Args.getD g1.optind []).length + 1 + sumTail g1.Args (g1.optind + 1) :=
          sumTail_succ _ _ hlt1'
        have hSg1 : Sane g1 :=
          ⟨aFL', by omega, by omega, fun h => absurd (aN'.trans hnc0) h⟩
        dsimp only
        split
        next hno =>
          split
          next hord =>
            exact ⟨hSg1, aL', Or.inl hl1, fun hd _ => absurd rfl hd⟩
          next hord =>
            have hrs : remWork ({ g1 with optind := g1.optind + 1 } : Getopt) =
                sumTail g1.Args (g1.optind + 1) := by
              unfold remWork
              rw [if_pos (by simp [aN'.trans hnc0])]
            refine ⟨⟨aFL', (by omega : g1.lastNonopt ≤ g1.Args.length),
              (by omega : g1.optind + 1 ≤ g1.Args.length),
              fun h => absurd (aN'.trans hnc0) h⟩, aL',
              Or.inl (by omega : g1.lastNonopt ≤ g1.optind + 1), fun _ _ => ?_⟩
            rw [hrs]
            omega
        next hno =>
          split
          next hlong =>
            have hW := longToResult_spec
              ({ g1 with nextChar := (g1.Args.getD g1.optind []).drop 2 }) lo
              argumentTerminatorStr
            rcases hlr : longToResult
                (({ g1 with nextChar := (g1.Args.getD g1.optind []).drop 2 }
                  : Getopt).processLongOption lo argumentTerminatorStr) with ⟨gr, rr⟩
            rw [hlr] at hW
            obtain ⟨wA, wSO, wLO, wF, wL, wCr, wCase, wDone⟩ := hW
            have wA' : gr.Args = g1.Args := wA
            have wF' : gr.firstNonopt = g1.firstNonopt := wF
            have wL' : gr.lastNonopt = g1.lastNonopt := wL
            rcases wCase with ⟨hd, hst⟩ | ⟨hnd, hn, hor⟩
            · have hst' : gr = { g1 with nextChar := (g1.Args.getD g1.optind []).drop 2 } :=
                hst
              have hd' : rr = GetoptResult.done := hd
              subst hst'
              subst hd'
              exact ⟨⟨aFL', (by omega : g1.lastNonopt ≤ g1.Args.length),
                (by omega : g1.optind ≤ g1.Args.length),
                fun _ => ⟨(by omega : g1.optind < g1.Args.length), hl1⟩⟩,
                aL', Or.inl hl1, fun hd2 _ => absurd rfl hd2⟩
            · have hn' : gr.nextChar = [] := hn
              have hor' : gr.optind = g1.optind + 1 ∨
                  (gr.optind = g1.optind + 2 ∧ g1.optind + 1 < g1.Args.length) := hor
              have hopt1 : g1.optind + 1 ≤ gr.optind := by
                rcases hor' with h | ⟨h, _⟩ <;> omega
              have hoptb : gr.optind ≤ g1.Args.length := by
                rcases hor' with h | ⟨h, hb⟩ <;> omega
              have hrs : remWork gr = sumTail g1.Args gr.optind := by
                unfold remWork
                rw [if_pos (by simp [hn']), wA']
              refine ⟨⟨by rw [wF', wL']; exact aFL', by rw [wL', wA']; omega,
                by rw [wA']; exact hoptb, fun h => absurd hn' h⟩,
                by rw [wA']; exact aL',
                Or.inl (by rw [wL']; exact Nat.le_trans hl1 (Nat.le_trans (Nat.le_succ _) hopt1)), fun _ _ => ?_⟩
              rw [hrs]
              have hmono : sumTail g1.Args gr.optind ≤ sumTail g1.Args (g1.optind + 1) :=
                sumTail_mono _ hopt1
              omega
          next hlong =>
            split
            next hloc =>
              have hPL := processLongOption_spec
                ({ g1 with nextChar := (g1.Args.getD g1.optind []).drop 1 }) lo dashStr
              rcases hpl : ({ g1 with nextChar := (g1.Args.getD g1.optind []).drop 1 }
                  : Getopt).processLongOption lo dashStr with ⟨g2, r2⟩
              rw [hpl] at hPL
              obtain ⟨pA, pSO, pLO, pF, pL, pNL, pCons, pFalse⟩ := hPL
              have pA' : g2.Args = g1.Args := pA
              have pF' : g2.firstNonopt = g1.firstNonopt := pF
              have pL' : g2.lastNonopt = g1.lastNonopt := pL
              cases r2 with
              | opt o2 =>
                obtain ⟨hn2, hor2⟩ := pCons (by simp)
                have hn2' : g2.nextChar = [] := hn2
                have hor2' : g2.optind = g1.optind + 1 ∨
                    (g2.optind = g1.optind + 2 ∧ g1.optind + 1 < g1.Args.length) := hor2
                have hopt1 : g1.optind + 1 ≤ g2.optind := by
                  rcases hor2' with h | ⟨h, _⟩ <;> omega
                have hoptb : g2.optind ≤ g1.Args.length := by
                  rcases hor2' with h | ⟨h, hb⟩ <;> omega
                have hrs : remWork g2 = sumTail g1.Args g2.optind := by
                  unfold remWork
                  rw [if_pos (by simp [hn2']), pA']
                have hlo2 : g1.lastNonopt ≤ g2.optind :=
                  Nat.le_trans hl1 (Nat.le_trans (Nat.le_succ _) hopt1)
                refine ⟨⟨by rw [pF', pL']; exact aFL', by rw [pL', pA']; omega,
                  by rw [pA']; exact hoptb, fun h => absurd hn2' h⟩,
                  by rw [pA']; exact aL',
                  Or.inl (by rw [pL']; exact hlo2), fun _ _ => ?_⟩
                rw [hrs]
                have hmono : sumTail g1.Args g2.optind ≤ sumTail g1.Args (g1.optind + 1) :=
                  sumTail_mono _ hopt1
                omega
              | error e =>
                obtain ⟨hn2, hor2⟩ := pCons (by simp)
                have hn2' : g2.nextChar = [] := hn2
                have hor2' : g2.optind = g1.optind + 1 ∨
                    (g2.optind = g1.optind + 2 ∧ g1.optind + 1 < g1.Args.length) := hor2
                have hopt1 : g1.optind + 1 ≤ g2.optind := by
                  rcases hor2' with h | ⟨h, _⟩ <;> omega
                have hoptb : g2.optind ≤ g1.Args.length := by
                  rcases hor2' with h | ⟨h, hb⟩ <;> omega
                have hls2 : g2.lastNonopt ≤ g2.optind := by
                  rw [pL']
                  omega
                obtain ⟨eS, eA, eSO, eLO, eF, eL, els, endn, erem⟩ :=
                  shortEntry_spec g2
                    ⟨by rw [pF', pL']; exact aFL', by rw [pL', pA']; omega,
                      by rw [pA']; exact hoptb, fun h => absurd hn2' h⟩ hls2
                have hrem : (g2.shortEntry).2 ≠ GetoptResult.crash →
                    remWork (g2.shortEntry).1 < remWork g := by
                  intro hcr2
                  have hb1 : remWork (g2.shortEntry).1 < sumTail g2.Args g2.optind :=
                    erem hcr2
                  have hb2 : sumTail g2.Args g2.optind = sumTail g1.Args g2.optind := by
                    rw [pA']
                  have hmono : sumTail g1.Args g2.optind ≤
                      sumTail g1.Args (g1.optind + 1) := sumTail_mono _ hopt1
                  omega
                exact ⟨eS, by rw [eA, pA']; exact aL', Or.inl els,
                  fun _ hcr => hrem hcr⟩
              | notLong =>
                have hg2 : g2 = { g1 with nextChar := (g1.Args.getD g1.optind []).drop 1 } :=
                  pNL rfl
                subst hg2
                obtain ⟨eS, eA, eSO, eLO, eF, eL, els, endn, erem⟩ :=
                  shortEntry_spec
                    ({ g1 with nextChar := (g1.Args.getD g1.optind []).drop 1 })
                    ⟨aFL', (by omega : g1.lastNonopt ≤ g1.Args.length),
                      (by omega : g1.optind ≤ g1.Args.length),
                      fun _ => ⟨(by omega : g1.optind < g1.Args.length), hl1⟩⟩ hl1
                have hrem : (({ g1 with nextChar := (g1.Args.getD g1.optind []).drop 1 }
                      : Getopt).shortEntry).2 ≠ GetoptResult.crash →
                    remWork (({ g1 with nextChar := (g1.Args.getD g1.optind []).drop 1 }
                      : Getopt).shortEntry).1 < remWork g := by
                  intro hcr2
                  have hb1 : remWork
                      (({ g1 with nextChar := (g1.Args.getD g1.optind []).drop 1 }
                        : Getopt).shortEntry).1 < sumTail g1.Args g1.optind := erem hcr2
                  omega
                exact ⟨eS, by rw [eA]; exact aL', Or.inl els, fun _ hcr => hrem hcr⟩
            next hloc =>
              obtain ⟨eS, eA, eSO, eLO, eF, eL, els, endn, erem⟩ :=
                shortEntry_spec g1 hSg1 hl1
              have hrem : (g1.shortEntry).2 ≠ GetoptResult.crash →
                  remWork (g1.shortEntry).1 < remWork g := by
                intro hcr2
                have hb1 : remWork (g1.shortEntry).1 < sumTail g1.Args g1.optind :=
                  erem hcr2
                omega
              exact ⟨eS, by rw [eA]; exact aL', Or.inl els, fun _ hcr => hrem hcr⟩
    next hempty =>
      have hnc : g.nextChar ≠ [] := fun h => hempty (by simp [h])
      obtain ⟨hlt, hls⟩ := hS4 hnc
      obtain ⟨xS, xA, xSO, xLO, xF, xL, xls, xnd, xncr, xrem⟩ :=
        shortPhase_step g ⟨hS1, hS2, hS3, hS4⟩ hls hlt hnc
      exact ⟨xS, by rw [xA], Or.inl xls, fun _ _ => xrem⟩

end getopt

namespace getopt

/-- Driving the scanner with more fuel than the remaining work always
reaches the sentinel, or dies at one of the modelled Go panics: errors
cannot repeat forever. -/
theorem runGetopt_terminates (lo : Bool) (fuel : Nat) :
    ∀ g : Getopt, Sane g → remWork g < fuel →
    (runGetopt g lo fuel).2.2 = true ∨
      (runGetopt g lo fuel).1.getLast? = some GetoptResult.crash := by
  induction fuel with
  | zero =>
    intro g _ hf
    omega
  | succ n ih =>
    intro g hS hf
    obtain ⟨hS', hL', hOr', hdec⟩ := getoptInternalR_spec g lo hS
    rcases hr : g.getoptInternalR lo with ⟨g1, r⟩
    rw [hr] at hS' hdec
    have hS1 : Sane g1 := hS'
    cases r with
    | done =>
      left
      simp [runGetopt, hr]
    | crash =>
      right
      simp [runGetopt, hr]
    | opt o =>
      have hd : remWork g1 < remWork g := hdec (by simp) (by simp)
      have ih2 := ih g1 hS1 (by omega)
      rcases hrec : runGetopt g1 lo n with ⟨rs, gf, fin⟩
      rw [hrec] at ih2
      simp only [runGetopt, hr, hrec]
      rcases ih2 with h | h
      · left
        exact h
      · right
        rcases rs with _ | ⟨x, xs⟩
        · simp at h
        · rw [List.getLast?_cons_cons]
          exact h
    | error e =>
      have hd : remWork g1 < remWork g := hdec (by simp) (by simp)
      have ih2 := ih g1 hS1 (by omega)
      rcases hrec : runGetopt g1 lo n with ⟨rs, gf, fin⟩
      rw [hrec] at ih2
      simp only [runGetopt, hr, hrec]
      rcases ih2 with h | h
      · left
        exact h
      · right
        rcases rs with _ | ⟨x, xs⟩
        · simp at h
        · rw [List.getLast?_cons_cons]
          exact h

/-- C8: every call returning an error strictly decreases the remaining
work, so from any sane state the scan never loops on a malformed token:
with more fuel than the remaining work, repeated calls reach the
end-of-options sentinel (or one of the modelled Go panics of the long-only
error-swallowing path); and scanning `["prog","-acb"]` with an empty
option table yields exactly three `UnrecognizedOption` errors for `a`,
`c`, `b`, then the sentinel. -/
theorem C8_error_progress (g : Getopt) (lo : Bool) (fuel : Nat) (hS : Sane g)
    (hf : remWork g < fuel) :
    (∀ e, (g.getoptInternalR lo).2 = .error e →
      remWork (g.getoptInternalR lo).1 < remWork g) ∧
    ((runGetopt g lo fuel).2.2 = true ∨
      (runGetopt g lo fuel).1.getLast? = some GetoptResult.crash) ∧
    runGetopt (Getopt.Reset [str "prog", str "-acb"] [] false) false 5 =
      ([.error (.UnrecognizedOption (str "a") dashStr),
        .error (.UnrecognizedOption (str "c") dashStr),
        .error (.UnrecognizedOption (str "b") dashStr), .done],
       { Getopt.Reset [str "prog", str "-acb"] [] false with
          optind := 2, firstNonopt := 2, lastNonopt := 2 }, true) := by
  refine ⟨fun e he => ?_, runGetopt_terminates lo fuel g hS hf, rfl⟩
  exact (getoptInternalR_spec g lo hS).2.2.2 (by rw [he]; simp) (by rw [he]; simp)

/-- Witness for C8 at the concrete vector of the claim. -/
theorem C8_error_progress_witness :
    ((∀ e, ((Getopt.Reset [str "prog", str "-acb"] [] false).getoptInternalR false).2 =
        .error e →
      remWork ((Getopt.Reset [str "prog", str "-acb"] [] false).getoptInternalR false).1 <
        remWork (Getopt.Reset [str "prog", str "-acb"] [] false)) ∧
    ((runGetopt (Getopt.Reset [str "prog", str "-acb"] [] false) false 6).2.2 = true ∨
      (runGetopt (Getopt.Reset [str "prog", str "-acb"] [] false) false 6).1.getLast? =
        some GetoptResult.crash) ∧
    runGetopt (Getopt.Reset [str "prog", str "-acb"] [] false) false 5 =
      ([.error (.UnrecognizedOption (str "a") dashStr),
        .error (.UnrecognizedOption (str "c") dashStr),
        .error (.UnrecognizedOption (str "b") dashStr), .done],
       { Getopt.Reset [str "prog", str "-acb"] [] false with
          optind := 2, firstNonopt := 2, lastNonopt := 2 }, true)) :=
  C8_error_progress (Getopt.Reset [str "prog", str "-acb"] [] false) false 6
    ⟨by decide, by decide, by decide, fun h => absurd rfl h⟩ (by decide)

end getopt

namespace getopt

/-- C9 counterexample: with vector `["prog","x"]` and spec `"a"` the first
call permutes past the non-option `x`, hits the end, rewinds the cursor to
`firstNonopt = 1` and returns the sentinel, leaving
`lastNonopt = 2 > optind = 1`: the claimed chain
`firstNonopt ≤ lastNonopt ≤ optind` does not hold after every call. -/
theorem C9_rewind_counterexample :
    (Getopt.Reset [str "prog", str "x"] (str "a") false).GetoptCall.2 =
      GetoptResult.done ∧
    ¬((Getopt.Reset [str "prog", str "x"] (str "a") false).GetoptCall.1.lastNonopt ≤
      (Getopt.Reset [str "prog", str "x"] (str "a") false).GetoptCall.1.optind) := by
  exact ⟨rfl, by decide⟩

/-- C9 (amended): after `Reset` on a nonempty vector the indices satisfy
`firstNonopt ≤ lastNonopt ≤ optind ≤ len`; every call from a sane state
keeps the state sane (markers ordered and in range, cursor in range),
preserves the vector length, and leaves the markers at or behind the
cursor except at the sentinel rewind, where the cursor equals
`firstNonopt`; and `exchange` only swaps the blocks
`[firstNonopt, lastNonopt)` and `[lastNonopt, optind)` as blocks,
preserving the internal order of each and everything outside
`[firstNonopt, optind)`, and the length. -/
theorem C9_index_invariant (args : List Str) (spec : Str) (env : Bool)
    (g : Getopt) (lo : Bool) (hargs : 1 ≤ args.length) (hS : Sane g)
    (hfl : g.firstNonopt ≤ g.lastNonopt) (hlo : g.lastNonopt ≤ g.optind)
    (ho : g.optind ≤ g.Args.length) :
    ((Getopt.Reset args spec env).firstNonopt ≤
        (Getopt.Reset args spec env).lastNonopt ∧
      (Getopt.Reset args spec env).lastNonopt ≤ (Getopt.Reset args spec env).optind ∧
      (Getopt.Reset args spec env).optind ≤ args.length) ∧
    (Sane (g.getoptInternalR lo).1 ∧
      (g.getoptInternalR lo).1.Args.length = g.Args.length ∧
      ((g.getoptInternalR lo).1.lastNonopt ≤ (g.getoptInternalR lo).1.optind ∨
        ((g.getoptInternalR lo).2 = .done ∧
          (g.getoptInternalR lo).1.firstNonopt = (g.getoptInternalR lo).1.optind))) ∧
    (g.exchange.Args =
        g.Args.take g.firstNonopt ++ seg g.Args g.lastNonopt g.optind ++
          seg g.Args g.firstNonopt g.lastNonopt ++ g.Args.drop g.optind ∧
      g.exchange.Args.length = g.Args.length) := by
  obtain ⟨e1, e2, e3, e4, e5, e6⟩ := exchange_spec g hfl hlo ho
  obtain ⟨m1, m2, m3, m4⟩ := getoptInternalR_spec g lo hS
  exact ⟨⟨Nat.le_refl _, Nat.le_refl _, hargs⟩, ⟨m1, m2, m3⟩, e1, e6⟩

/-- Witness for C9 (amended) at a concrete scanner mid-scan. -/
theorem C9_index_invariant_witness :
    (((Getopt.Reset [str "prog"] [] false).firstNonopt ≤
        (Getopt.Reset [str "prog"] [] false).lastNonopt ∧
      (Getopt.Reset [str "prog"] [] false).lastNonopt ≤
        (Getopt.Reset [str "prog"] [] false).optind ∧
      (Getopt.Reset [str "prog"] [] false).optind ≤ [str "prog"].length) ∧
    (Sane ((Getopt.Reset [str "prog", str "x"] (str "a") false).getoptInternalR false).1 ∧
      ((Getopt.Reset [str "prog", str "x"] (str "a") false).getoptInternalR
          false).1.Args.length =
        (Getopt.Reset [str "prog", str "x"] (str "a") false).Args.length ∧
      (((Getopt.Reset [str "prog", str "x"] (str "a") false).getoptInternalR
            false).1.lastNonopt ≤
          ((Getopt.Reset [str "prog", str "x"] (str "a") false).getoptInternalR
            false).1.optind ∨
        (((Getopt.Reset [str "prog", str "x"] (str "a") false).getoptInternalR false).2 =
            .done ∧
          ((Getopt.Reset [str "prog", str "x"] (str "a") false).getoptInternalR
              false).1.firstNonopt =
            ((Getopt.Reset [str "prog", str "x"] (str "a") false).getoptInternalR
              false).1.optind))) ∧
    ((Getopt.Reset [str "prog", str "x"] (str "a") false).exchange.Args =
        (Getopt.Reset [str "prog", str "x"] (str "a") false).Args.take
            (Getopt.Reset [str "prog", str "x"] (str "a") false).firstNonopt ++
          seg (Getopt.Reset [str "prog", str "x"] (str "a") false).Args
            (Getopt.Reset [str "prog", str "x"] (str "a") false).lastNonopt
            (Getopt.Reset [str "prog", str "x"] (str "a") false).optind ++
          seg (Getopt.Reset [str "prog", str "x"] (str "a") false).Args
            (Getopt.Reset [str "prog", str "x"] (str "a") false).firstNonopt
            (Getopt.Reset [str "prog", str "x"] (str "a") false).lastNonopt ++
          (Getopt.Reset [str "prog", str "x"] (str "a") false).Args.drop
            (Getopt.Reset [str "prog", str "x"] (str "a") false).optind ∧
      (Getopt.Reset [str "prog", str "x"] (str "a") false).exchange.Args.length =
        (Getopt.Reset [str "prog", str "x"] (str "a") false).Args.length)) :=
  C9_index_invariant [str "prog"] [] false
    (Getopt.Reset [str "prog", str "x"] (str "a") false) false (by decide)
    ⟨by decide, by decide, by decide, fun h => absurd rfl h⟩
    (by decide) (by decide) (by decide)

end getopt

namespace getopt

theorem seg_self (args : List Str) (a : Nat) : seg args a a = [] := by
  simp [seg]

theorem seg_getD_dashdash (g : Getopt) (hfl : g.firstNonopt ≤ g.lastNonopt)
    (hlo : g.lastNonopt ≤ g.optind) (hp : g.optind < g.Args.length)
    (hdd : g.Args.getD g.optind [] = argumentTerminatorStr) :
    (g.Args.take g.firstNonopt ++ seg g.Args g.lastNonopt (g.optind + 1) ++
        seg g.Args g.firstNonopt g.lastNonopt ++
        g.Args.drop (g.optind + 1)).getD
      (g.firstNonopt + (g.optind + 1 - g.lastNonopt) - 1) [] =
      argumentTerminatorStr := by
  have hT : (g.Args.take g.firstNonopt).length = g.firstNonopt := by
    rw [List.length_take]
    omega
  have hB : (seg g.Args g.lastNonopt (g.optind + 1)).length =
      g.optind + 1 - g.lastNonopt := by
    simp only [seg, List.length_take, List.length_drop]
    omega
  have hk : g.firstNonopt + (g.optind + 1 - g.lastNonopt) - 1 =
      g.firstNonopt + (g.optind - g.lastNonopt) := by omega
  rw [hk, List.getD_eq_getElem?_getD]
  have h1 : (g.Args.take g.firstNonopt ++ seg g.Args g.lastNonopt (g.optind + 1) ++
      seg g.Args g.firstNonopt g.lastNonopt ++
      g.Args.drop (g.optind + 1))[g.firstNonopt + (g.optind - g.lastNonopt)]? =
      g.Args[g.optind]? := by
    have hlen1 : g.firstNonopt + (g.optind - g.lastNonopt) <
        (g.Args.take g.firstNonopt ++ seg g.Args g.lastNonopt (g.optind + 1) ++
          seg g.Args g.firstNonopt g.lastNonopt).length := by
      rw [List.length_append, List.length_append, hT, hB]
      omega
    have hlen2 : g.firstNonopt + (g.optind - g.lastNonopt) <
        (g.Args.take g.firstNonopt ++ seg g.Args g.lastNonopt (g.optind + 1)).length := by
      rw [List.length_append, hT, hB]
      omega
    have hlen3 : (g.Args.take g.firstNonopt).length ≤
        g.firstNonopt + (g.optind - g.lastNonopt) := by
      rw [hT]
      omega
    rw [List.getElem?_append_left hlen1, List.getElem?_append_left hlen2,
      List.getElem?_append_right hlen3, hT]
    have h2 : g.firstNonopt + (g.optind - g.lastNonopt) - g.firstNonopt =
        g.optind - g.lastNonopt := by omega
    rw [h2]
    simp only [seg]
    rw [List.getElem?_take, if_pos (by omega : g.optind - g.lastNonopt <
      g.optind + 1 - g.lastNonopt), List.getElem?_drop]
    congr 1
    omega
  rw [h1, List.getElem?_eq_getElem hp]
  rw [List.getD_eq_getElem g.Args [] hp] at hdd
  simpa using hdd

theorem endCheck_done_at_end (g : Getopt) (heq : g.optind = g.Args.length) :
    g.endCheck.2 = some .done ∧ g.endCheck.1.Args = g.Args ∧
    g.endCheck.1.firstNonopt = g.firstNonopt ∧
    g.endCheck.1.lastNonopt = g.lastNonopt ∧
    (g.endCheck.1.optind = g.firstNonopt ∨
      (g.firstNonopt = g.lastNonopt ∧ g.endCheck.1.optind = g.optind)) := by
  unfold Getopt.endCheck
  rw [if_pos heq]
  split
  next h => exact ⟨rfl, rfl, rfl, rfl, Or.inl rfl⟩
  next h => exact ⟨rfl, rfl, rfl, rfl, Or.inr ⟨not_not.mp h, rfl⟩⟩

/-- The `--` element step (getopt.go lines 406-431): from a state whose
cursor faces `--`, `dashDashPhase` plus `endCheck` consume it and signal
the sentinel; the cursor lands just past the (possibly relocated) `--`;
the pending non-option run lands at the cursor, in its original relative
order, followed by the untouched tail; the prefix before `firstNonopt` is
untouched; `lastNonopt` is parked at the end of the vector. -/
theorem dashDash_done_spec (g : Getopt) (hfl : g.firstNonopt ≤ g.lastNonopt)
    (hlo : g.lastNonopt ≤ g.optind) (ho : g.optind ≤ g.Args.length)
    (hx : g.optind ≠ g.Args.length)
    (hdd : g.Args.getD g.optind [] = argumentTerminatorStr) :
    g.dashDashPhase.endCheck.2 = some .done ∧
    g.dashDashPhase.endCheck.1.Args.length = g.Args.length ∧
    g.dashDashPhase.endCheck.1.firstNonopt = g.dashDashPhase.endCheck.1.optind ∧
    g.dashDashPhase.endCheck.1.lastNonopt = g.Args.length ∧
    g.dashDashPhase.endCheck.1.optind =
      g.firstNonopt + (g.optind + 1 - g.lastNonopt) ∧
    g.dashDashPhase.endCheck.1.Args.getD
      (g.dashDashPhase.endCheck.1.optind - 1) [] = argumentTerminatorStr ∧
    g.dashDashPhase.endCheck.1.Args.drop g.dashDashPhase.endCheck.1.optind =
      seg g.Args g.firstNonopt g.lastNonopt ++ g.Args.drop (g.optind + 1) ∧
    g.dashDashPhase.endCheck.1.Args.take g.firstNonopt =
      g.Args.take g.firstNonopt := by
  have hp : g.optind < g.Args.length := by omega
  have hT : (g.Args.take g.firstNonopt).length = g.firstNonopt := by
    rw [List.length_take]
    omega
  have hB : (seg g.Args g.lastNonopt (g.optind + 1)).length =
      g.optind + 1 - g.lastNonopt := by
    simp only [seg, List.length_take, List.length_drop]
    omega
  simp only [Getopt.dashDashPhase]
  rw [if_pos ⟨hx, hdd⟩]
  split
  next hc1 =>
    have hc1f : g.firstNonopt ≠ g.lastNonopt := hc1.1
    have hex := exchange_spec { g with optind := g.optind + 1 } hfl
      (by omega : g.lastNonopt ≤ g.optind + 1)
      (by omega : g.optind + 1 ≤ g.Args.length)
    have hxA : ({ g with optind := g.optind + 1 } : Getopt).exchange.Args =
        g.Args.take g.firstNonopt ++ seg g.Args g.lastNonopt (g.optind + 1) ++
          seg g.Args g.firstNonopt g.lastNonopt ++ g.Args.drop (g.optind + 1) :=
      hex.1
    have hxF : ({ g with optind := g.optind + 1 } : Getopt).exchange.firstNonopt =
        g.firstNonopt + (g.optind + 1 - g.lastNonopt) := hex.2.1
    have hxL : ({ g with optind := g.optind + 1 } : Getopt).exchange.Args.length =
        g.Args.length := hex.2.2.2.2.2
    obtain ⟨d1, d2, d3, d4, d5⟩ := endCheck_done_at_end
      ({ ({ g with optind := g.optind + 1 } : Getopt).exchange with
        lastNonopt := ({ g with optind := g.optind + 1 } : Getopt).exchange.Args.length,
        optind := ({ g with optind := g.optind + 1 } : Getopt).exchange.Args.length }
        : Getopt)
      rfl
    rcases d5 with d5 | ⟨dbad, _⟩
    · have ho5 :
          ({ ({ g with optind := g.optind + 1 } : Getopt).exchange with
            lastNonopt :=
              ({ g with optind := g.optind + 1 } : Getopt).exchange.Args.length,
            optind :=
              ({ g with optind := g.optind + 1 } : Getopt).exchange.Args.length }
            : Getopt).endCheck.1.optind =
          g.firstNonopt + (g.optind + 1 - g.lastNonopt) := d5.trans hxF
      have hA2 :
          ({ ({ g with optind := g.optind + 1 } : Getopt).exchange with
            lastNonopt :=
              ({ g with optind := g.optind + 1 } : Getopt).exchange.Args.length,
            optind :=
              ({ g with optind := g.optind + 1 } : Getopt).exchange.Args.length }
            : Getopt).endCheck.1.Args =
          g.Args.take g.firstNonopt ++ seg g.Args g.lastNonopt (g.optind + 1) ++
            seg g.Args g.firstNonopt g.lastNonopt ++ g.Args.drop (g.optind + 1) :=
        d2.trans hxA
      have h6 := hA2 ▸ ho5 ▸ seg_getD_dashdash g hfl hlo hp hdd
      have hAB : (g.Args.take g.firstNonopt ++
          seg g.Args g.lastNonopt (g.optind + 1)).length =
          g.firstNonopt + (g.optind + 1 - g.lastNonopt) := by
        rw [List.length_append, hT, hB]
      have h7 :
          ({ ({ g with optind := g.optind + 1 } : Getopt).exchange with
            lastNonopt :=
              ({ g with optind := g.optind + 1 } : Getopt).exchange.Args.length,
            optind :=
              ({ g with optind := g.optind + 1 } : Getopt).exchange.Args.length }
            : Getopt).endCheck.1.Args.drop
            ({ ({ g with optind := g.optind + 1 } : Getopt).exchange with
              lastNonopt :=
                ({ g with optind := g.optind + 1 } : Getopt).exchange.Args.length,
              optind :=
                ({ g with optind := g.optind + 1 } : Getopt).exchange.Args.length }
              : Getopt).endCheck.1.optind =
          seg g.Args g.firstNonopt g.lastNonopt ++ g.Args.drop (g.optind + 1) := by
        rw [hA2, ho5, List.append_assoc (g.Args.take g.firstNonopt ++
          seg g.Args g.lastNonopt (g.optind + 1)) (seg g.Args g.firstNonopt g.lastNonopt)
          (g.Args.drop (g.optind + 1))]
        exact List.drop_left' hAB
      have h8 :
          ({ ({ g with optind := g.optind + 1 } : Getopt).exchange with
            lastNonopt :=
              ({ g with optind := g.optind + 1 } : Getopt).exchange.Args.length,
            optind :=
              ({ g with optind := g.optind + 1 } : Getopt).exchange.Args.length }
            : Getopt).endCheck.1.Args.take g.firstNonopt =
          g.Args.take g.firstNonopt := by
        rw [hA2, List.append_assoc, List.append_assoc]
        exact List.take_left' hT
      exact ⟨d1, (congrArg List.length d2).trans hxL, (d3.trans hxF).trans ho5.symm, d4.trans hxL,
        ho5, h6, h7, h8⟩
    · exfalso
      have dbad2 : ({ g with optind := g.optind + 1 } : Getopt).exchange.firstNonopt =
          ({ g with optind := g.optind + 1 } : Getopt).exchange.Args.length := dbad
      rw [hxF, hxL] at dbad2
      omega
  next hc1 =>
    split
    next hc2 =>
      have hc2f : g.firstNonopt = g.lastNonopt := hc2
      have hseg : seg g.Args g.firstNonopt g.lastNonopt = [] := by
        rw [hc2f]
        exact seg_self g.Args g.lastNonopt
      obtain ⟨d1, d2, d3, d4, d5⟩ := endCheck_done_at_end
        ({ g with firstNonopt := g.optind + 1, lastNonopt := g.Args.length, optind := g.Args.length } : Getopt) rfl
      have ho5 : ({ g with firstNonopt := g.optind + 1, lastNonopt := g.Args.length, optind := g.Args.length } : Getopt).endCheck.1.optind = g.optind + 1 := by
        rcases d5 with h | ⟨hq, h⟩
        · exact h
        · have hq2 : g.optind + 1 = g.Args.length := hq
          exact h.trans hq2.symm
      have h6 : ({ g with firstNonopt := g.optind + 1, lastNonopt := g.Args.length, optind := g.Args.length } : Getopt).endCheck.1.Args.getD
          (({ g with firstNonopt := g.optind + 1, lastNonopt := g.Args.length, optind := g.Args.length } : Getopt).endCheck.1.optind - 1) [] =
          argumentTerminatorStr := by
        rw [d2, ho5]
        simpa using hdd
      have h7 : ({ g with firstNonopt := g.optind + 1, lastNonopt := g.Args.length, optind := g.Args.length } : Getopt).endCheck.1.Args.drop
          (({ g with firstNonopt := g.optind + 1, lastNonopt := g.Args.length, optind := g.Args.length } : Getopt).endCheck.1.optind) =
          seg g.Args g.firstNonopt g.lastNonopt ++ g.Args.drop (g.optind + 1) := by
        rw [d2, ho5, hseg, List.nil_append]
      have h8 : ({ g with firstNonopt := g.optind + 1, lastNonopt := g.Args.length, optind := g.Args.length } : Getopt).endCheck.1.Args.take g.firstNonopt =
          g.Args.take g.firstNonopt := by
        rw [d2]
      exact ⟨d1, congrArg List.length d2, d3.trans ho5.symm, d4,
        ho5.trans (by omega : g.optind + 1 =
          g.firstNonopt + (g.optind + 1 - g.lastNonopt)), h6, h7, h8⟩
    next hc2 =>
      exfalso
      have h1 : ¬(g.firstNonopt ≠ g.lastNonopt ∧ g.lastNonopt ≠ g.optind + 1) := hc1
      have h2 : ¬(g.firstNonopt = g.lastNonopt) := hc2
      rcases not_and_or.mp h1 with h | h
      · exact h2 (not_not.mp h)
      · have h3 : g.lastNonopt = g.optind + 1 := not_not.mp h
        omega

end getopt

namespace getopt

/-- C2 counterexample: with spec `a:b` and vector
`["prog","-a","--","-b"]`, the element `--` is consumed as the required
argument of `-a` instead of terminating the options, and the following
element `-b` — positioned after `--` — is returned as the option `b` by
the next call. -/
theorem C2_argument_swallows_dashdash_counterexample :
    (Getopt.Reset [str "prog", str "-a", str "--", str "-b"] (str "a:b")
        false).GetoptCall.2 =
      .opt { C := 'a', Arg := some (str "--"), LongInd := 0 } ∧
    (Getopt.Reset [str "prog", str "-a", str "--", str "-b"] (str "a:b")
        false).GetoptCall.1.GetoptCall.2 =
      .opt { C := 'b', Arg := none, LongInd := 0 } :=
  ⟨rfl, rfl⟩

/-- C2 (amended): when the scan itself reaches an element `--` (after the
cursor-normalisation and permutation phases, and not consumed as some
option's argument), the call returns the end-of-options sentinel; the
vector length is preserved; the cursor is rewound to `firstNonopt`, which
points just past the (possibly relocated) `--`; the pending non-option
run lands at the cursor in its original relative order, followed by the
untouched tail; the prefix before the run's start is untouched; and
`lastNonopt` is parked at the end of the vector. -/
theorem C2_double_dash (g : Getopt) (lo : Bool)
    (hfl : g.firstNonopt ≤ g.lastNonopt) (ho : g.optind ≤ g.Args.length)
    (hnc : g.nextChar = []) (h1 : 1 ≤ g.Args.length)
    (hx : g.clampNonopts.permutePhase.optind ≠ g.clampNonopts.permutePhase.Args.length)
    (hdd : g.clampNonopts.permutePhase.Args.getD g.clampNonopts.permutePhase.optind [] =
      argumentTerminatorStr) :
    (g.getoptInternalR lo).2 = .done ∧
    (g.getoptInternalR lo).1.Args.length = g.Args.length ∧
    (g.getoptInternalR lo).1.firstNonopt = (g.getoptInternalR lo).1.optind ∧
    (g.getoptInternalR lo).1.lastNonopt = g.Args.length ∧
    (g.getoptInternalR lo).1.optind = g.clampNonopts.permutePhase.firstNonopt +
      (g.clampNonopts.permutePhase.optind + 1 -
        g.clampNonopts.permutePhase.lastNonopt) ∧
    (g.getoptInternalR lo).1.Args.getD ((g.getoptInternalR lo).1.optind - 1) [] =
      argumentTerminatorStr ∧
    (g.getoptInternalR lo).1.Args.drop (g.getoptInternalR lo).1.optind =
      seg g.clampNonopts.permutePhase.Args g.clampNonopts.permutePhase.firstNonopt
          g.clampNonopts.permutePhase.lastNonopt ++
        g.clampNonopts.permutePhase.Args.drop
          (g.clampNonopts.permutePhase.optind + 1) ∧
    (g.getoptInternalR lo).1.Args.take g.clampNonopts.permutePhase.firstNonopt =
      g.clampNonopts.permutePhase.Args.take
        g.clampNonopts.permutePhase.firstNonopt := by
  obtain ⟨cA, cSO, cLO, cN, cO, cFL, cLo, cLl⟩ := clampNonopts_spec g hfl
  obtain ⟨pA, pSO, pLO, pN, pFL, pLo, pO1, pO2, pD⟩ :=
    permutePhase_spec g.clampNonopts cFL (by rw [cO]; exact cLo)
      (by rw [cO, cA]; exact ho)
  obtain ⟨dd1, dd2, dd3, dd4, dd5, dd6, dd7, dd8⟩ :=
    dashDash_done_spec g.clampNonopts.permutePhase pFL pLo
      (by rw [pA]; exact pO2) hx hdd
  have hAl : g.clampNonopts.permutePhase.Args.length = g.Args.length := by
    rw [pA, cA]
  have hadv : g.advanceArgv =
      (g.clampNonopts.permutePhase.dashDashPhase.endCheck.1,
        some GetoptResult.done) :=
    Prod.ext rfl dd1
  simp only [Getopt.getoptInternalR]
  rw [if_neg (by omega : ¬g.Args.length < 1),
    if_pos (by simp [hnc] : g.nextChar.isEmpty = true), hadv]
  exact ⟨rfl, dd2.trans hAl, dd3, dd4.trans hAl, dd5, dd6, dd7, dd8⟩

/-- The scanner state one call after `Reset` on
`["prog","n1","-a","--","n2"]` with spec `a`: the pending non-option `n1`
is recorded and the cursor faces `--`. -/
def C2state : Getopt :=
  (Getopt.Reset [str "prog", str "n1", str "-a", str "--", str "n2"]
    (str "a") false).GetoptCall.1

/-- Witness for C2 (amended) at a state with a pending non-option run. -/
theorem C2_double_dash_witness :
    (C2state.getoptInternalR false).2 = .done ∧
    (C2state.getoptInternalR false).1.Args.length = C2state.Args.length ∧
    (C2state.getoptInternalR false).1.firstNonopt =
      (C2state.getoptInternalR false).1.optind ∧
    (C2state.getoptInternalR false).1.lastNonopt = C2state.Args.length ∧
    (C2state.getoptInternalR false).1.optind =
      C2state.clampNonopts.permutePhase.firstNonopt +
      (C2state.clampNonopts.permutePhase.optind + 1 -
        C2state.clampNonopts.permutePhase.lastNonopt) ∧
    (C2state.getoptInternalR false).1.Args.getD
      ((C2state.getoptInternalR false).1.optind - 1) [] =
      argumentTerminatorStr ∧
    (C2state.getoptInternalR false).1.Args.drop
      (C2state.getoptInternalR false).1.optind =
      seg C2state.clampNonopts.permutePhase.Args
          C2state.clampNonopts.permutePhase.firstNonopt
          C2state.clampNonopts.permutePhase.lastNonopt ++
        C2state.clampNonopts.permutePhase.Args.drop
          (C2state.clampNonopts.permutePhase.optind + 1) ∧
    (C2state.getoptInternalR false).1.Args.take
      C2state.clampNonopts.permutePhase.firstNonopt =
      C2state.clampNonopts.permutePhase.Args.take
        C2state.clampNonopts.permutePhase.firstNonopt :=
  C2_double_dash C2state false (by decide) (by decide) (by decide) (by decide)
    (by decide) (by decide)

end getopt

namespace getopt

/-- `zs` interleaves `xs` and `ys`, preserving each one's internal order. -/
inductive Interleave : List Str → List Str → List Str → Prop where
  | nil : Interleave [] [] []
  | left {x : Str} {xs ys zs : List Str} :
      Interleave xs ys zs → Interleave (x :: xs) ys (x :: zs)
  | right {y : Str} {xs ys zs : List Str} :
      Interleave xs ys zs → Interleave xs (y :: ys) (y :: zs)

theorem interleave_all_left (ws : List Str) : Interleave ws [] ws := by
  induction ws with
  | nil => exact .nil
  | cons w ws ih => exact .left ih

theorem interleave_append_left {xs ys zs : List Str} (h : Interleave xs ys zs)
    (ws : List Str) : Interleave (xs ++ ws) ys (zs ++ ws) := by
  induction h with
  | nil => simpa using interleave_all_left ws
  | left h ih => exact .left ih
  | right h ih => exact .right ih

theorem interleave_append_right {xs ys zs : List Str} (h : Interleave xs ys zs)
    (ws : List Str) : Interleave xs (ys ++ ws) (zs ++ ws) := by
  induction h with
  | nil =>
    simp only [List.nil_append]
    induction ws with
    | nil => exact .nil
    | cons w ws ih => exact .right ih
  | left h ih => exact .left ih
  | right h ih => exact .right ih

theorem interleave_length {xs ys zs : List Str} (h : Interleave xs ys zs) :
    xs.length + ys.length = zs.length := by
  induction h with
  | nil => rfl
  | left h ih => simp only [List.length_cons]; omega
  | right h ih => simp only [List.length_cons]; omega

theorem interleave_mem_left {xs ys zs : List Str} (h : Interleave xs ys zs) :
    ∀ a ∈ xs, a ∈ zs := by
  induction h with
  | nil =>
    intro a ha
    exact absurd ha (List.not_mem_nil a)
  | left h ih =>
    intro a ha
    rcases List.mem_cons.mp ha with h2 | h2
    · exact h2 ▸ List.mem_cons_self _ _
    · exact List.mem_cons_of_mem _ (ih a h2)
  | right h ih =>
    intro a ha
    exact List.mem_cons_of_mem _ (ih a ha)

theorem interleave_mem_right {xs ys zs : List Str} (h : Interleave xs ys zs) :
    ∀ a ∈ ys, a ∈ zs := by
  induction h with
  | nil =>
    intro a ha
    exact absurd ha (List.not_mem_nil a)
  | left h ih =>
    intro a ha
    exact List.mem_cons_of_mem _ (ih a ha)
  | right h ih =>
    intro a ha
    rcases List.mem_cons.mp ha with h2 | h2
    · exact h2 ▸ List.mem_cons_self _ _
    · exact List.mem_cons_of_mem _ (ih a h2)

end getopt

namespace getopt

theorem seg_append (args : List Str) {a b c : Nat} (hab : a ≤ b) (hbc : b ≤ c) :
    seg args a c = seg args a b ++ seg args b c := by
  unfold seg
  have h1 : c - a = (b - a) + (c - b) := by omega
  rw [h1, List.take_add, List.drop_drop]
  have h2 : a + (b - a) = b := by omega
  rw [h2]

theorem seg_length (args : List Str) {a b : Nat} (hab : a ≤ b)
    (hb : b ≤ args.length) : (seg args a b).length = b - a := by
  unfold seg
  rw [List.length_take, List.length_drop]
  omega

theorem drop_eq_of_drop_eq {a b : List Str} {i j : Nat}
    (h : a.drop i = b.drop i) (hij : i ≤ j) : a.drop j = b.drop j := by
  have h1 : j = i + (j - i) := by omega
  rw [h1, ← List.drop_drop, h, List.drop_drop]

theorem seg_congr_drop {a b : List Str} {i j k : Nat}
    (h : a.drop i = b.drop i) (hij : i ≤ j) : seg a j k = seg b j k := by
  unfold seg
  rw [drop_eq_of_drop_eq h hij]

theorem take_seg (args : List Str) {a b : Nat} (hab : a ≤ b) :
    args.take a ++ seg args a b = args.take b := by
  unfold seg
  have h1 : b = a + (b - a) := by omega
  rw [h1, List.take_add]
  have h2 : a + (b - a) - a = b - a := by omega
  rw [h2]

theorem seg_to_end (args : List Str) (a : Nat) :
    seg args a args.length = args.drop a := by
  unfold seg
  have h1 : (args.drop a).length = args.length - a := List.length_drop a args
  rw [← h1, List.take_length]

theorem seg_subset (args : List Str) (a b : Nat) : seg args a b ⊆ args := by
  unfold seg
  intro x hx
  exact List.drop_subset a args (List.take_subset _ _ hx)

theorem getD_drop (l : List Str) (n m : Nat) :
    (l.drop n).getD m [] = l.getD (n + m) [] := by
  rw [List.getD_eq_getElem?_getD, List.getD_eq_getElem?_getD, List.getElem?_drop]

theorem take_takeWhile {p : Str → Bool} (l : List Str) :
    l.take (l.takeWhile p).length = l.takeWhile p :=
  (List.prefix_iff_eq_take.mp (List.takeWhile_prefix p)).symm

theorem takeWhile_stop {p : Str → Bool} :
    ∀ l : List Str, (l.takeWhile p).length < l.length →
      p (l.getD (l.takeWhile p).length []) = false := by
  intro l
  induction l with
  | nil => intro h; simp at h
  | cons x xs ih =>
    intro h
    by_cases hp : p x
    · rw [List.takeWhile_cons_of_pos hp] at h ⊢
      simp only [List.length_cons] at h ⊢
      have h2 := ih (by omega)
      simpa using h2
    · rw [List.takeWhile_cons_of_neg hp]
      simpa using hp

theorem skipNonoptions_stop (args : List Str) (i : Nat)
    (h : skipNonoptions args i < args.length) :
    nonoption (args.getD (skipNonoptions args i) []) = false := by
  unfold skipNonoptions at h ⊢
  rw [← getD_drop]
  apply takeWhile_stop
  rw [List.length_drop]
  omega

theorem skipNonoptions_run (args : List Str) (i : Nat) :
    seg args i (skipNonoptions args i) =
      (args.drop i).takeWhile nonoption := by
  unfold skipNonoptions seg
  have h2 : i + ((args.drop i).takeWhile nonoption).length - i =
      ((args.drop i).takeWhile nonoption).length := by omega
  rw [h2, take_takeWhile]

end getopt

namespace getopt

/-- Index of the first ARGV element not yet (fully or partially) consumed:
the cursor itself, or one past it while a place cursor is active inside
the element under the cursor. -/
def Bnd (g : Getopt) : Nat := if g.nextChar.isEmpty then g.optind else g.optind + 1

/-- Invariant of a `Permute`-mode scan of the vector `orig`: indices are
ordered and in range; the program name and the yet-unreached tail are
untouched; the region between the non-option markers holds only
non-options; and the consumed region `[1, Bnd)` of the current vector is
the processed options followed by the pending non-option run, an
interleaving of the corresponding original region that preserves both
relative orders. -/
def PermInv (orig : List Str) (g : Getopt) : Prop :=
  g.shortOptions.Ordering = .Permute ∧
  1 ≤ g.firstNonopt ∧ g.firstNonopt ≤ g.lastNonopt ∧ g.lastNonopt ≤ g.optind ∧
  Bnd g ≤ g.Args.length ∧
  g.Args.length = orig.length ∧
  g.Args.take 1 = orig.take 1 ∧
  g.Args.drop (Bnd g) = orig.drop (Bnd g) ∧
  (∀ x ∈ seg g.Args g.firstNonopt g.lastNonopt, nonoption x = true) ∧
  Interleave (seg g.Args 1 g.firstNonopt ++ seg g.Args g.lastNonopt (Bnd g))
    (seg g.Args g.firstNonopt g.lastNonopt) (seg orig 1 (Bnd g))

/-- Final layout after a `Permute` scan of `orig` reports the sentinel:
the options (in scan order) follow the program name, the skipped
non-options sit contiguously at the tail in their original relative
order, the whole vector is the evident interleaving permutation of
`orig`, and the cursor sits on the first non-option. -/
def FinalProps (orig : List Str) (gf : Getopt) : Prop :=
  ∃ O N : List Str,
    gf.Args = orig.take 1 ++ O ++ N ∧
    Interleave O N (orig.drop 1) ∧
    (∀ x ∈ N, nonoption x = true) ∧
    gf.optind = 1 + O.length ∧
    gf.optind + N.length = orig.length ∧
    gf.Args.length = orig.length

theorem permInv_consume (orig : List Str) (g g' : Getopt)
    (hA : g'.Args = g.Args) (hSO : g'.shortOptions = g.shortOptions)
    (hF : g'.firstNonopt = g.firstNonopt) (hL : g'.lastNonopt = g.lastNonopt)
    (hlo : g'.lastNonopt ≤ g'.optind)
    (hb : Bnd g ≤ Bnd g') (hb2 : Bnd g' ≤ g.Args.length)
    (hInv : PermInv orig g) : PermInv orig g' := by
  obtain ⟨i1, i2, i3, i4, i5, i6, i7, i8, i9, i10⟩ := hInv
  have hlB : g.lastNonopt ≤ Bnd g := by
    unfold Bnd
    split <;> omega
  refine ⟨by rw [hSO]; exact i1, by rw [hF]; exact i2,
    by rw [hF, hL]; exact i3, hlo,
    by rw [hA]; exact hb2, by rw [hA]; exact i6, by rw [hA]; exact i7, ?_, ?_, ?_⟩
  · rw [hA]
    exact drop_eq_of_drop_eq i8 hb
  · rw [hA, hF, hL]
    exact i9
  · rw [hA, hF, hL]
    have hW : seg g.Args (Bnd g) (Bnd g') = seg orig (Bnd g) (Bnd g') :=
      seg_congr_drop i8 (Nat.le_refl _)
    have hsplit : seg g.Args g.lastNonopt (Bnd g') =
        seg g.Args g.lastNonopt (Bnd g) ++ seg g.Args (Bnd g) (Bnd g') :=
      seg_append g.Args hlB hb
    have hsplit2 : seg orig 1 (Bnd g') =
        seg orig 1 (Bnd g) ++ seg orig (Bnd g) (Bnd g') :=
      seg_append orig (by omega : 1 ≤ Bnd g) hb
    rw [hsplit, hsplit2, ← hW, ← List.append_assoc]
    exact interleave_append_left i10 (seg g.Args (Bnd g) (Bnd g'))
  
end getopt

namespace getopt

theorem Bnd_of_nextChar_nil {g : Getopt} (h : g.nextChar = []) : Bnd g = g.optind := by
  unfold Bnd
  rw [if_pos (by simp [h])]

theorem Bnd_of_nextChar_ne {g : Getopt} (h : g.nextChar ≠ []) :
    Bnd g = g.optind + 1 := by
  unfold Bnd
  rw [if_neg (by simpa using h)]

theorem exchange_segs (g : Getopt) (h2 : 1 ≤ g.firstNonopt)
    (h3 : g.firstNonopt ≤ g.lastNonopt) (h4 : g.lastNonopt ≤ g.optind)
    (h5 : g.optind ≤ g.Args.length) :
    seg g.exchange.Args 1 (g.firstNonopt + (g.optind - g.lastNonopt)) =
      seg g.Args 1 g.firstNonopt ++ seg g.Args g.lastNonopt g.optind ∧
    seg g.exchange.Args (g.firstNonopt + (g.optind - g.lastNonopt)) g.optind =
      seg g.Args g.firstNonopt g.lastNonopt ∧
    g.exchange.Args.take 1 = g.Args.take 1 := by
  have hex := exchange_spec g h3 h4 h5
  have hXA : g.exchange.Args = g.Args.take g.firstNonopt ++
      seg g.Args g.lastNonopt g.optind ++ seg g.Args g.firstNonopt g.lastNonopt ++
      g.Args.drop g.optind := hex.1
  have hTl : (g.Args.take g.firstNonopt).length = g.firstNonopt := by
    rw [List.length_take]
    omega
  have hBl : (seg g.Args g.lastNonopt g.optind).length = g.optind - g.lastNonopt :=
    seg_length g.Args h4 h5
  have hCl : (seg g.Args g.firstNonopt g.lastNonopt).length =
      g.lastNonopt - g.firstNonopt :=
    seg_length g.Args h3 (by omega)
  have hABl : (g.Args.take g.firstNonopt ++ seg g.Args g.lastNonopt g.optind).length =
      g.firstNonopt + (g.optind - g.lastNonopt) := by
    rw [List.length_append, hTl, hBl]
  have hsplit : g.exchange.Args =
      (g.Args.take g.firstNonopt ++ seg g.Args g.lastNonopt g.optind) ++
        (seg g.Args g.firstNonopt g.lastNonopt ++ g.Args.drop g.optind) := by
    rw [hXA,
      List.append_assoc (g.Args.take g.firstNonopt ++ seg g.Args g.lastNonopt g.optind)]
  refine ⟨?_, ?_, ?_⟩
  · have htk : g.exchange.Args.take (g.firstNonopt + (g.optind - g.lastNonopt)) =
        g.Args.take g.firstNonopt ++ seg g.Args g.lastNonopt g.optind := by
      rw [hsplit]
      exact List.take_left' hABl
    have hseg : seg g.exchange.Args 1 (g.firstNonopt + (g.optind - g.lastNonopt)) =
        (g.exchange.Args.take (g.firstNonopt + (g.optind - g.lastNonopt))).drop 1 := by
      unfold seg
      rw [List.drop_take]
    rw [hseg, htk, List.drop_append_of_le_length (by rw [hTl]; omega :
      1 ≤ (g.Args.take g.firstNonopt).length)]
    congr 1
    unfold seg
    rw [List.drop_take]
  · unfold seg
    rw [hsplit, List.drop_left' hABl]
    exact List.take_left' (by rw [hCl]; omega)
  · rw [hsplit, List.take_append_of_le_length (by rw [hABl]; omega),
      List.take_append_of_le_length (by rw [hTl]; omega),
      List.take_take, Nat.min_eq_left h2]

end getopt

namespace getopt

/-- Under the `Permute` invariant with no active place cursor, the
permutation phase preserves the invariant, leaves the place cursor empty,
parks `lastNonopt` at the cursor, and stops the cursor at the end or at a
non-`nonoption` element. -/
theorem permInv_permutePhase (orig : List Str) (g : Getopt) (hInv : PermInv orig g)
    (hnc : g.nextChar = []) :
    PermInv orig g.permutePhase ∧
    g.permutePhase.nextChar = [] ∧
    g.permutePhase.lastNonopt = g.permutePhase.optind ∧
    (g.permutePhase.optind < g.permutePhase.Args.length →
      nonoption (g.permutePhase.Args.getD g.permutePhase.optind []) = false) := by
  obtain ⟨i1, i2, i3, i4, i5, i6, i7, i8, i9, i10⟩ := hInv
  have hBg : Bnd g = g.optind := Bnd_of_nextChar_nil hnc
  rw [hBg] at i5 i8 i10
  simp only [Getopt.permutePhase]
  rw [if_pos i1]
  split
  next hc1 =>
    have hne1 : g.firstNonopt ≠ g.lastNonopt := hc1.1
    have hne2 : g.lastNonopt ≠ g.optind := hc1.2
    have hsegs := exchange_segs g i2 i3 i4 i5
    have hex := exchange_spec g i3 i4 i5
    have hXlen : g.exchange.Args.length = g.Args.length := hex.2.2.2.2.2
    have hXdrop : g.exchange.Args.drop g.optind = g.Args.drop g.optind :=
      exchange_drop g i3 i4 i5
    have hXnc : g.exchange.nextChar = [] := hex.2.2.2.2.1.trans hnc
    have hskip := skipNonoptions_spec g.exchange.Args g.optind (by rw [hXlen]; exact i5)
    have hso : g.optind ≤ skipNonoptions g.exchange.Args g.optind := hskip.1
    have hsl : skipNonoptions g.exchange.Args g.optind ≤ g.exchange.Args.length :=
      hskip.2
    have hfle : g.firstNonopt + (g.optind - g.lastNonopt) ≤ g.optind := by omega
    have hWor : seg g.exchange.Args g.optind (skipNonoptions g.exchange.Args g.optind) =
        seg orig g.optind (skipNonoptions g.exchange.Args g.optind) :=
      seg_congr_drop (hXdrop.trans i8) (Nat.le_refl _)
    have hrun : ∀ x ∈ seg g.exchange.Args g.optind
        (skipNonoptions g.exchange.Args g.optind), nonoption x = true := by
      intro x hx
      rw [skipNonoptions_run] at hx
      exact List.mem_takeWhile_imp hx
    have hSnc : ({ g.exchange with optind := skipNonoptions g.exchange.Args g.optind, lastNonopt := skipNonoptions g.exchange.Args g.optind } : Getopt).nextChar = [] := hXnc
    have hc3 : g.firstNonopt + (g.optind - g.lastNonopt) ≤
        skipNonoptions g.exchange.Args g.optind := by omega
    have hc9 : ∀ x ∈ seg g.exchange.Args (g.firstNonopt + (g.optind - g.lastNonopt))
        (skipNonoptions g.exchange.Args g.optind), nonoption x = true := by
      intro x hx
      rw [seg_append g.exchange.Args hfle hso] at hx
      rcases List.mem_append.mp hx with h | h
      · rw [hsegs.2.1] at h
        exact i9 x h
      · exact hrun x h
    have hc10 : Interleave
        (seg g.exchange.Args 1 (g.firstNonopt + (g.optind - g.lastNonopt)) ++
          seg g.exchange.Args (skipNonoptions g.exchange.Args g.optind)
            (skipNonoptions g.exchange.Args g.optind))
        (seg g.exchange.Args (g.firstNonopt + (g.optind - g.lastNonopt))
          (skipNonoptions g.exchange.Args g.optind))
        (seg orig 1 (skipNonoptions g.exchange.Args g.optind)) := by
      rw [seg_self, List.append_nil, hsegs.1,
        seg_append g.exchange.Args hfle hso, hsegs.2.1, hWor,
        seg_append orig (by omega : 1 ≤ g.optind) hso]
      exact interleave_append_right i10 _
    have hPI : PermInv orig ({ g.exchange with optind := skipNonoptions g.exchange.Args g.optind, lastNonopt := skipNonoptions g.exchange.Args g.optind } : Getopt) := by
      refine ⟨i1, (by omega : 1 ≤ g.firstNonopt + (g.optind - g.lastNonopt)), hc3,
        Nat.le_refl _, ?_, hXlen.trans i6, hsegs.2.2.trans i7, ?_, hc9, ?_⟩
      · rw [Bnd_of_nextChar_nil hSnc]
        exact hsl
      · rw [Bnd_of_nextChar_nil hSnc]
        exact drop_eq_of_drop_eq (hXdrop.trans i8) hso
      · rw [Bnd_of_nextChar_nil hSnc]
        exact hc10
    exact ⟨hPI, hXnc, rfl, fun h => skipNonoptions_stop g.exchange.Args g.optind h⟩
  next hc1 =>
    have hskip := skipNonoptions_spec g.Args g.optind i5
    have hso : g.optind ≤ skipNonoptions g.Args g.optind := hskip.1
    have hsl : skipNonoptions g.Args g.optind ≤ g.Args.length := hskip.2
    have hW2 : seg g.Args g.optind (skipNonoptions g.Args g.optind) =
        seg orig g.optind (skipNonoptions g.Args g.optind) :=
      seg_congr_drop i8 (Nat.le_refl _)
    have hrun : ∀ x ∈ seg g.Args g.optind (skipNonoptions g.Args g.optind),
        nonoption x = true := by
      intro x hx
      rw [skipNonoptions_run] at hx
      exact List.mem_takeWhile_imp hx
    split
    next hc2 =>
      have hc2' : g.lastNonopt ≠ g.optind := hc2
      have hfl2 : g.firstNonopt = g.lastNonopt := by
        rcases not_and_or.mp hc1 with h | h
        · exact not_not.mp h
        · exact absurd (not_not.mp h) hc2'
      have hSnc : ({ g with firstNonopt := g.optind, optind := skipNonoptions g.Args g.optind, lastNonopt := skipNonoptions g.Args g.optind } : Getopt).nextChar = [] := hnc
      rw [← hfl2, seg_self] at i10
      have hc10 : Interleave
          (seg g.Args 1 g.optind ++ seg g.Args (skipNonoptions g.Args g.optind)
            (skipNonoptions g.Args g.optind))
          (seg g.Args g.optind (skipNonoptions g.Args g.optind))
          (seg orig 1 (skipNonoptions g.Args g.optind)) := by
        rw [seg_self, List.append_nil,
          seg_append g.Args (by omega : 1 ≤ g.firstNonopt) (by omega :
            g.firstNonopt ≤ g.optind),
          hW2, seg_append orig (by omega : 1 ≤ g.optind) hso]
        have h10 := interleave_append_right i10
          (seg orig g.optind (skipNonoptions g.Args g.optind))
        rw [List.nil_append] at h10
        exact h10
      have hPI : PermInv orig ({ g with firstNonopt := g.optind, optind := skipNonoptions g.Args g.optind, lastNonopt := skipNonoptions g.Args g.optind } : Getopt) := by
        refine ⟨i1, (by omega : 1 ≤ g.optind), hso, Nat.le_refl _, ?_, i6, i7, ?_,
          hrun, ?_⟩
        · rw [Bnd_of_nextChar_nil hSnc]
          exact hsl
        · rw [Bnd_of_nextChar_nil hSnc]
          exact drop_eq_of_drop_eq i8 hso
        · rw [Bnd_of_nextChar_nil hSnc]
          exact hc10
      exact ⟨hPI, hnc, rfl, fun h => skipNonoptions_stop g.Args g.optind h⟩
    next hc2 =>
      have hlo3 : g.lastNonopt = g.optind := not_not.mp hc2
      have hSnc : ({ g with optind := skipNonoptions g.Args g.optind, lastNonopt := skipNonoptions g.Args g.optind } : Getopt).nextChar = [] := hnc
      rw [hlo3, seg_self, List.append_nil] at i10
      rw [hlo3] at i9
      have hc9 : ∀ x ∈ seg g.Args g.firstNonopt (skipNonoptions g.Args g.optind),
          nonoption x = true := by
        intro x hx
        rw [seg_append g.Args (by omega : g.firstNonopt ≤ g.optind) hso] at hx
        rcases List.mem_append.mp hx with h | h
        · exact i9 x h
        · exact hrun x h
      have hc10 : Interleave
          (seg g.Args 1 g.firstNonopt ++ seg g.Args (skipNonoptions g.Args g.optind)
            (skipNonoptions g.Args g.optind))
          (seg g.Args g.firstNonopt (skipNonoptions g.Args g.optind))
          (seg orig 1 (skipNonoptions g.Args g.optind)) := by
        rw [seg_self, List.append_nil,
          seg_append g.Args (by omega : g.firstNonopt ≤ g.optind) hso, hW2,
          seg_append orig (by omega : 1 ≤ g.optind) hso]
        exact interleave_append_right i10 _
      have hPI : PermInv orig ({ g with optind := skipNonoptions g.Args g.optind, lastNonopt := skipNonoptions g.Args g.optind } : Getopt) := by
        refine ⟨i1, i2, (by omega : g.firstNonopt ≤ skipNonoptions g.Args g.optind),
          Nat.le_refl _, ?_, i6, i7, ?_, hc9, ?_⟩
        · rw [Bnd_of_nextChar_nil hSnc]
          exact hsl
        · rw [Bnd_of_nextChar_nil hSnc]
          exact drop_eq_of_drop_eq i8 hso
        · rw [Bnd_of_nextChar_nil hSnc]
          exact hc10
      exact ⟨hPI, hnc, rfl, fun h => skipNonoptions_stop g.Args g.optind h⟩

end getopt

namespace getopt

theorem clampNonopts_id (g : Getopt) (hfl : g.firstNonopt ≤ g.lastNonopt)
    (hlo : g.lastNonopt ≤ g.optind) : g.clampNonopts = g := by
  simp only [Getopt.clampNonopts]
  rw [if_neg (by omega : ¬g.optind < g.lastNonopt),
    if_neg (by omega : ¬g.optind < g.firstNonopt)]

theorem Bnd_ge_optind (g : Getopt) : g.optind ≤ Bnd g := by
  unfold Bnd
  split <;> omega

theorem permInv_mem (orig : List Str) (g : Getopt) (hInv : PermInv orig g) :
    ∀ x ∈ g.Args, x ∈ orig := by
  obtain ⟨i1, i2, i3, i4, i5, i6, i7, i8, i9, i10⟩ := hInv
  have hoB : g.optind ≤ Bnd g := Bnd_ge_optind g
  intro x hx
  have hdec : g.Args = g.Args.take (Bnd g) ++ g.Args.drop (Bnd g) :=
    (List.take_append_drop _ _).symm
  rw [hdec] at hx
  rcases List.mem_append.mp hx with hx | hx
  · have h2 : g.Args.take (Bnd g) = g.Args.take 1 ++
        (seg g.Args 1 g.firstNonopt ++ seg g.Args g.firstNonopt g.lastNonopt ++
          seg g.Args g.lastNonopt (Bnd g)) := by
      rw [← List.append_assoc, ← List.append_assoc, take_seg g.Args i2,
        take_seg g.Args i3, take_seg g.Args (by omega : g.lastNonopt ≤ Bnd g)]
    rw [h2] at hx
    rcases List.mem_append.mp hx with hx | hx
    · rw [i7] at hx
      exact List.take_subset 1 orig hx
    · have hseg : x ∈ seg orig 1 (Bnd g) := by
        rcases List.mem_append.mp hx with hx | hx
        · rcases List.mem_append.mp hx with hx | hx
          · exact interleave_mem_left i10 x (List.mem_append.mpr (Or.inl hx))
          · exact interleave_mem_right i10 x hx
        · exact interleave_mem_left i10 x (List.mem_append.mpr (Or.inr hx))
      exact seg_subset orig 1 (Bnd g) hseg
  · rw [i8] at hx
    exact List.drop_subset _ _ hx

theorem dashDashPhase_id (g : Getopt)
    (h : g.optind = g.Args.length ∨
      g.Args.getD g.optind [] ≠ argumentTerminatorStr) : g.dashDashPhase = g := by
  unfold Getopt.dashDashPhase
  rw [if_neg ?hcnd]
  case hcnd =>
    intro hcc
    rcases h with h | h
    · exact hcc.1 h
    · exact h hcc.2

theorem permInv_final (orig : List Str) (g : Getopt) (hInv : PermInv orig g)
    (hnc : g.nextChar = []) (hll : g.lastNonopt = g.optind)
    (heq : g.optind = g.Args.length) :
    g.endCheck.2 = some .done ∧ FinalProps orig g.endCheck.1 := by
  obtain ⟨i1, i2, i3, i4, i5, i6, i7, i8, i9, i10⟩ := hInv
  have hB : Bnd g = g.optind := Bnd_of_nextChar_nil hnc
  rw [hB] at i5 i8 i10
  obtain ⟨d1, d2, d3, d4, d5⟩ := endCheck_done_at_end g heq
  have hoe : g.endCheck.1.optind = g.firstNonopt := by
    rcases d5 with h | ⟨hfe, h⟩
    · exact h
    · exact h.trans ((hfe.trans hll).symm)
  have hflen : g.firstNonopt ≤ g.Args.length := by omega
  have hdecomp : g.Args.take 1 ++ seg g.Args 1 g.firstNonopt ++
      seg g.Args g.firstNonopt g.Args.length = g.Args := by
    rw [take_seg g.Args i2, take_seg g.Args hflen, List.take_length]
  rw [hll, heq] at i9
  rw [hll] at i10
  rw [seg_self, List.append_nil] at i10
  rw [heq] at i10
  have hZ : seg orig 1 g.Args.length = orig.drop 1 := by
    rw [i6]
    exact seg_to_end orig 1
  rw [hZ] at i10
  refine ⟨d1, seg g.Args 1 g.firstNonopt, seg g.Args g.firstNonopt g.Args.length,
    ?_, i10, i9, ?_, ?_, ?_⟩
  · rw [d2, ← i7]
    exact hdecomp.symm
  · rw [hoe, seg_length g.Args i2 hflen]
    omega
  · rw [hoe, seg_length g.Args hflen (Nat.le_refl _)]
    omega
  · rw [d2]
    exact i6

end getopt

namespace getopt

theorem nonoption_false_length {s : Str} (h : nonoption s = false) : 2 ≤ s.length := by
  unfold nonoption at h
  rw [Bool.or_eq_false_iff] at h
  obtain ⟨h1, h2⟩ := h
  have h1' : dashStr.isPrefixOf s = true := by
    cases hx : dashStr.isPrefixOf s
    · rw [hx] at h1
      simp at h1
    · rfl
  have h2' : s.length ≠ 1 := by simpa using h2
  have h3 : dashStr.length ≤ s.length :=
    (List.isPrefixOf_iff_prefix.mp h1').length_le
  have h4 : dashStr.length = 1 := rfl
  omega

/-- One `Getopt`/`GetoptLong` call (`longOnly = false`) preserves the
`Permute` invariant unless it reports the sentinel or a panic; at the
sentinel the final layout holds. -/
theorem permInv_step (orig : List Str) (g : Getopt)
    (hnd : ∀ x ∈ orig, ¬x = argumentTerminatorStr)
    (hInv : PermInv orig g) :
    ((g.getoptInternalR false).2 ≠ .done → (g.getoptInternalR false).2 ≠ .crash →
      PermInv orig (g.getoptInternalR false).1) ∧
    ((g.getoptInternalR false).2 = .done →
      FinalProps orig (g.getoptInternalR false).1) := by
  have hpack := hInv
  obtain ⟨i1, i2, i3, i4, i5, i6, i7, i8, i9, i10⟩ := hInv
  have hoB : g.optind ≤ Bnd g := Bnd_ge_optind g
  have hlen1 : 1 ≤ g.Args.length := by omega
  simp only [Getopt.getoptInternalR]
  rw [if_neg (by omega : ¬g.Args.length < 1)]
  by_cases hnce : g.nextChar = []
  case pos =>
    rw [if_pos (by simp [hnce] : g.nextChar.isEmpty = true)]
    have hBg : Bnd g = g.optind := Bnd_of_nextChar_nil hnce
    have hclamp : g.clampNonopts = g := clampNonopts_id g i3 i4
    obtain ⟨pInv, pN, pL, pStop⟩ := permInv_permutePhase orig g hpack hnce
    have pInv2 := pInv
    obtain ⟨p1, p2, p3, p4, p5, p6, p7, p8, p9, p10⟩ := pInv2
    have hBp : Bnd g.permutePhase = g.permutePhase.optind := Bnd_of_nextChar_nil pN
    rw [hBp] at p5 p8 p10
    have hdd : g.permutePhase.dashDashPhase = g.permutePhase := by
      apply dashDashPhase_id
      by_cases hol : g.permutePhase.optind = g.permutePhase.Args.length
      · exact Or.inl hol
      · right
        intro hterm
        have hlt : g.permutePhase.optind < g.permutePhase.Args.length := by omega
        have hmem : g.permutePhase.Args.getD g.permutePhase.optind [] ∈
            g.permutePhase.Args := by
          rw [List.getD_eq_getElem _ _ hlt]
          exact List.getElem_mem hlt
        exact hnd _ (permInv_mem orig g.permutePhase pInv _ hmem) hterm
    have hadv : g.advanceArgv = g.permutePhase.endCheck := by
      show g.clampNonopts.permutePhase.dashDashPhase.endCheck = _
      rw [hclamp, hdd]
    by_cases hend : g.permutePhase.optind = g.permutePhase.Args.length
    case pos =>
      obtain ⟨e1, eF⟩ := permInv_final orig g.permutePhase pInv pN pL hend
      rcases hE : g.permutePhase.endCheck with ⟨ge, oe⟩
      rw [hE] at e1 eF
      have hoe : oe = some GetoptResult.done := e1
      subst hoe
      rw [hadv, hE]
      exact ⟨fun hd _ => absurd rfl hd, fun _ => eF⟩
    case neg =>
      have hlt : g.permutePhase.optind < g.permutePhase.Args.length := by omega
      have hE : g.permutePhase.endCheck = (g.permutePhase, none) := by
        unfold Getopt.endCheck
        rw [if_neg hend]
      rw [hadv, hE]
      dsimp only
      have hstop := pStop hlt
      rw [if_neg (by rw [hstop]; simp :
        ¬nonoption (g.permutePhase.Args.getD g.permutePhase.optind []) = true)]
      split
      next hlong =>
        have hW := longToResult_spec
          ({ g.permutePhase with
            nextChar := (g.permutePhase.Args.getD g.permutePhase.optind []).drop 2 })
          false argumentTerminatorStr
        rcases hlr : longToResult
            (({ g.permutePhase with
              nextChar := (g.permutePhase.Args.getD g.permutePhase.optind []).drop 2 }
              : Getopt).processLongOption false argumentTerminatorStr) with ⟨gr, rr⟩
        rw [hlr] at hW
        obtain ⟨wA, wSO, wLO, wF, wL, wCr, wCase, wDone⟩ := hW
        have wA2 : gr.Args = g.permutePhase.Args := wA
        have wSO2 : gr.shortOptions = g.permutePhase.shortOptions := wSO
        have wF2 : gr.firstNonopt = g.permutePhase.firstNonopt := wF
        have wL2 : gr.lastNonopt = g.permutePhase.lastNonopt := wL
        have wnd : rr ≠ GetoptResult.done := wDone rfl
        rcases wCase with ⟨hd, _⟩ | ⟨hnd2, hn, hor⟩
        · exact absurd hd wnd
        · have hn2 : gr.nextChar = [] := hn
          have hor2 : gr.optind = g.permutePhase.optind + 1 ∨
              (gr.optind = g.permutePhase.optind + 2 ∧
                g.permutePhase.optind + 1 < g.permutePhase.Args.length) := hor
          have hgro : g.permutePhase.optind + 1 ≤ gr.optind := by
            rcases hor2 with h | ⟨h, _⟩ <;> omega
          have hgrb : gr.optind ≤ g.permutePhase.Args.length := by
            rcases hor2 with h | ⟨h, hb⟩ <;> omega
          have hBgr : Bnd gr = gr.optind := Bnd_of_nextChar_nil hn2
          have hcons : PermInv orig gr := by
            apply permInv_consume orig g.permutePhase gr wA2 wSO2 wF2 wL2
            · rw [wL2, pL]
              omega
            · rw [hBp, hBgr]
              omega
            · rw [hBgr]
              exact hgrb
            · exact pInv
          exact ⟨fun _ _ => hcons, fun hd => absurd hd wnd⟩
      next hlong =>
        rw [if_neg (by simp :
          ¬(0 < g.permutePhase.longOptions.length ∧ false = true ∧
            (1 < (g.permutePhase.Args.getD g.permutePhase.optind []).length ∨
              ¬g.permutePhase.shortOptions.HasOpt
                ((g.permutePhase.Args.getD g.permutePhase.optind []).getD 1 ' ') =
                true)))]
        simp only [Getopt.shortEntry]
        rw [if_neg (by omega : ¬g.permutePhase.Args.length ≤ g.permutePhase.optind)]
        have hcur2 : 2 ≤ (g.permutePhase.Args.getD g.permutePhase.optind []).length :=
          nonoption_false_length hstop
        rw [if_neg (by omega :
          ¬(g.permutePhase.Args.getD g.permutePhase.optind []).length < 1)]
        have hncur : (g.permutePhase.Args.getD g.permutePhase.optind []).drop 1 ≠ [] := by
          apply List.length_pos.mp
          rw [List.length_drop]
          omega
        obtain ⟨xA, xSO, xLO, xF, xL, xOl, xnd, xncr, xcase⟩ :=
          shortPhase_spec
            ({ g.permutePhase with
              nextChar := (g.permutePhase.Args.getD g.permutePhase.optind []).drop 1 })
            hlt hncur
        have xA2 : (({ g.permutePhase with
            nextChar := (g.permutePhase.Args.getD g.permutePhase.optind []).drop 1 }
            : Getopt).shortPhase).1.Args = g.permutePhase.Args := xA
        have xSO2 : (({ g.permutePhase with
            nextChar := (g.permutePhase.Args.getD g.permutePhase.optind []).drop 1 }
            : Getopt).shortPhase).1.shortOptions = g.permutePhase.shortOptions := xSO
        have xF2 : (({ g.permutePhase with
            nextChar := (g.permutePhase.Args.getD g.permutePhase.optind []).drop 1 }
            : Getopt).shortPhase).1.firstNonopt = g.permutePhase.firstNonopt := xF
        have xL2 : (({ g.permutePhase with
            nextChar := (g.permutePhase.Args.getD g.permutePhase.optind []).drop 1 }
            : Getopt).shortPhase).1.lastNonopt = g.permutePhase.lastNonopt := xL
        have hcons : PermInv orig (({ g.permutePhase with
            nextChar := (g.permutePhase.Args.getD g.permutePhase.optind []).drop 1 }
            : Getopt).shortPhase).1 := by
          apply permInv_consume orig g.permutePhase _ xA2 xSO2 xF2 xL2
          · rcases xcase with ⟨ho2, _, _⟩ | ⟨ho2, _⟩
            · rw [xL2, pL]
              have ho3 : (({ g.permutePhase with
                  nextChar := (g.permutePhase.Args.getD g.permutePhase.optind []).drop 1 }
                  : Getopt).shortPhase).1.optind = g.permutePhase.optind := ho2
              omega
            · have ho3 : g.permutePhase.optind < (({ g.permutePhase with
                  nextChar := (g.permutePhase.Args.getD g.permutePhase.optind []).drop 1 }
                  : Getopt).shortPhase).1.optind := ho2
              rw [xL2, pL]
              omega
          · rw [hBp]
            rcases xcase with ⟨ho2, hne2, _⟩ | ⟨ho2, hnil2⟩
            · have hB3 : Bnd (({ g.permutePhase with
                  nextChar := (g.permutePhase.Args.getD g.permutePhase.optind []).drop 1 }
                  : Getopt).shortPhase).1 = (({ g.permutePhase with
                  nextChar := (g.permutePhase.Args.getD g.permutePhase.optind []).drop 1 }
                  : Getopt).shortPhase).1.optind + 1 := Bnd_of_nextChar_ne hne2
              have ho3 : (({ g.permutePhase with
                  nextChar := (g.permutePhase.Args.getD g.permutePhase.optind []).drop 1 }
                  : Getopt).shortPhase).1.optind = g.permutePhase.optind := ho2
              rw [hB3, ho3]
              omega
            · have hB3 : Bnd (({ g.permutePhase with
                  nextChar := (g.permutePhase.Args.getD g.permutePhase.optind []).drop 1 }
                  : Getopt).shortPhase).1 = (({ g.permutePhase with
                  nextChar := (g.permutePhase.Args.getD g.permutePhase.optind []).drop 1 }
                  : Getopt).shortPhase).1.optind := Bnd_of_nextChar_nil hnil2
              have ho3 : g.permutePhase.optind < (({ g.permutePhase with
                  nextChar := (g.permutePhase.Args.getD g.permutePhase.optind []).drop 1 }
                  : Getopt).shortPhase).1.optind := ho2
              rw [hB3]
              omega
          · rcases xcase with ⟨ho2, hne2, _⟩ | ⟨ho2, hnil2⟩
            · have hB3 : Bnd (({ g.permutePhase with
                  nextChar := (g.permutePhase.Args.getD g.permutePhase.optind []).drop 1 }
                  : Getopt).shortPhase).1 = (({ g.permutePhase with
                  nextChar := (g.permutePhase.Args.getD g.permutePhase.optind []).drop 1 }
                  : Getopt).shortPhase).1.optind + 1 := Bnd_of_nextChar_ne hne2
              have ho3 : (({ g.permutePhase with
                  nextChar := (g.permutePhase.Args.getD g.permutePhase.optind []).drop 1 }
                  : Getopt).shortPhase).1.optind = g.permutePhase.optind := ho2
              rw [hB3, ho3]
              omega
            · have hB3 : Bnd (({ g.permutePhase with
                  nextChar := (g.permutePhase.Args.getD g.permutePhase.optind []).drop 1 }
                  : Getopt).shortPhase).1 = (({ g.permutePhase with
                  nextChar := (g.permutePhase.Args.getD g.permutePhase.optind []).drop 1 }
                  : Getopt).shortPhase).1.optind := Bnd_of_nextChar_nil hnil2
              have hb4 : (({ g.permutePhase with
                  nextChar := (g.permutePhase.Args.getD g.permutePhase.optind []).drop 1 }
                  : Getopt).shortPhase).1.optind ≤ g.permutePhase.Args.length := xOl
              rw [hB3]
              exact hb4
          · exact pInv
        exact ⟨fun _ _ => hcons, fun hd => absurd hd xnd⟩
  case neg =>
    rw [if_neg (by simpa using hnce : ¬g.nextChar.isEmpty = true)]
    have hB2 : Bnd g = g.optind + 1 := Bnd_of_nextChar_ne hnce
    have hlt : g.optind < g.Args.length := by omega
    obtain ⟨xA, xSO, xLO, xF, xL, xOl, xnd, xncr, xcase⟩ := shortPhase_spec g hlt hnce
    have hcons : PermInv orig (g.shortPhase).1 := by
      apply permInv_consume orig g _ xA xSO xF xL
      · rcases xcase with ⟨ho2, _, _⟩ | ⟨ho2, _⟩
        · rw [xL, ho2]
          exact i4
        · rw [xL]
          omega
      · rw [hB2]
        rcases xcase with ⟨ho2, hne2, _⟩ | ⟨ho2, hnil2⟩
        · rw [Bnd_of_nextChar_ne hne2, ho2]
        · rw [Bnd_of_nextChar_nil hnil2]
          omega
      · rcases xcase with ⟨ho2, hne2, _⟩ | ⟨ho2, hnil2⟩
        · rw [Bnd_of_nextChar_ne hne2, ho2]
          omega
        · rw [Bnd_of_nextChar_nil hnil2]
          exact xOl
      · exact hpack
    exact ⟨fun _ _ => hcons, fun hd => absurd hd xnd⟩

end getopt

namespace getopt

/-- Driving `Getopt`/`GetoptLong` (`longOnly = false`) under `Permute`
with no `--` element: if the sentinel is reached, the final state has the
permuted layout and the sentinel is the last result, reported only once. -/
theorem runGetopt_permute (orig : List Str)
    (hnd : ∀ x ∈ orig, ¬x = argumentTerminatorStr) :
    ∀ (fuel : Nat) (g : Getopt), PermInv orig g →
    (runGetopt g false fuel).2.2 = true →
    FinalProps orig (runGetopt g false fuel).2.1 ∧
    (runGetopt g false fuel).1.getLast? = some GetoptResult.done ∧
    (∀ r ∈ (runGetopt g false fuel).1.dropLast, r ≠ GetoptResult.done) := by
  intro fuel
  induction fuel with
  | zero =>
    intro g _ hfin
    simp [runGetopt] at hfin
  | succ n ih =>
    intro g hInv hfin
    obtain ⟨hstep, hdone⟩ := permInv_step orig g hnd hInv
    rcases hr : g.getoptInternalR false with ⟨g1, r⟩
    rw [hr] at hstep hdone
    cases r with
    | done =>
      have hF : FinalProps orig g1 := hdone rfl
      simp only [runGetopt, hr]
      exact ⟨hF, by simp, by simp⟩
    | crash =>
      simp [runGetopt, hr] at hfin
    | opt o =>
      have hInv1 : PermInv orig g1 := hstep (by simp) (by simp)
      rcases hrec : runGetopt g1 false n with ⟨rs, gf, fin⟩
      have ih2 := ih g1 hInv1
      rw [hrec] at ih2
      simp only [runGetopt, hr, hrec] at hfin ⊢
      obtain ⟨hF, hlast, hmem⟩ := ih2 hfin
      refine ⟨hF, ?_, ?_⟩
      · rcases rs with _ | ⟨x, xs⟩
        · simp at hlast
        · rw [List.getLast?_cons_cons]
          exact hlast
      · rcases rs with _ | ⟨x, xs⟩
        · simp at hlast
        · intro r2 hr2
          rw [List.dropLast_cons₂] at hr2
          rcases List.mem_cons.mp hr2 with h | h
          · rw [h]
            simp
          · exact hmem r2 h
    | error e =>
      have hInv1 : PermInv orig g1 := hstep (by simp) (by simp)
      rcases hrec : runGetopt g1 false n with ⟨rs, gf, fin⟩
      have ih2 := ih g1 hInv1
      rw [hrec] at ih2
      simp only [runGetopt, hr, hrec] at hfin ⊢
      obtain ⟨hF, hlast, hmem⟩ := ih2 hfin
      refine ⟨hF, ?_, ?_⟩
      · rcases rs with _ | ⟨x, xs⟩
        · simp at hlast
        · rw [List.getLast?_cons_cons]
          exact hlast
      · rcases rs with _ | ⟨x, xs⟩
        · simp at hlast
        · intro r2 hr2
          rw [List.dropLast_cons₂] at hr2
          rcases List.mem_cons.mp hr2 with h | h
          · rw [h]
            simp
          · exact hmem r2 h

/-- C1: scanning any vector with any option table whose ordering is
`Permute` and no `--` element, with `Getopt`/`GetoptLong` calls
(`longOnly = false`): when the driver reaches the end-of-options sentinel,
the final `Args` is the permutation of the original vector in which the
skipped non-options sit contiguously at the tail in their original
relative order, the option elements (in original relative order) precede
them after the program name, and `Optind()` is one plus the number of
option elements, i.e. the vector length minus the number of skipped
non-options — the index of the first non-option; and the sentinel is the
last result, every earlier call having returned its option or error
before it. -/
theorem C1_permute_layout (args : List Str) (spec : Str) (longs : List LongOption)
    (env : Bool) (fuel : Nat) (h1 : 1 ≤ args.length)
    (hPerm : (parseShortOptionSpec spec env).Ordering = .Permute)
    (hnd : ∀ x ∈ args, ¬x = argumentTerminatorStr)
    (hfin : (runGetopt (Getopt.ResetLong args spec longs env) false fuel).2.2 = true) :
    FinalProps args (runGetopt (Getopt.ResetLong args spec longs env) false fuel).2.1 ∧
    (runGetopt (Getopt.ResetLong args spec longs env) false fuel).1.getLast? =
      some GetoptResult.done ∧
    (∀ r ∈ (runGetopt (Getopt.ResetLong args spec longs env) false fuel).1.dropLast,
      r ≠ GetoptResult.done) := by
  have h9 : ∀ x ∈ seg (Getopt.ResetLong args spec longs env).Args 1 1,
      nonoption x = true := by
    intro x hx
    rw [seg_self] at hx
    exact absurd hx (List.not_mem_nil x)
  have h10 : Interleave
      (seg (Getopt.ResetLong args spec longs env).Args 1 1 ++
        seg (Getopt.ResetLong args spec longs env).Args 1 1)
      (seg (Getopt.ResetLong args spec longs env).Args 1 1) (seg args 1 1) := by
    rw [seg_self, seg_self]
    exact Interleave.nil
  exact runGetopt_permute args hnd fuel (Getopt.ResetLong args spec longs env)
    ⟨hPerm, Nat.le_refl 1, Nat.le_refl 1, Nat.le_refl 1, h1, rfl, rfl, rfl, h9, h10⟩
    hfin

/-- Witness for C1: vector `["prog","n1","-a","n2"]` with spec `a`. -/
theorem C1_permute_layout_witness :
    FinalProps [str "prog", str "n1", str "-a", str "n2"]
      (runGetopt (Getopt.ResetLong [str "prog", str "n1", str "-a", str "n2"]
        (str "a") [] false) false 6).2.1 ∧
    (runGetopt (Getopt.ResetLong [str "prog", str "n1", str "-a", str "n2"]
      (str "a") [] false) false 6).1.getLast? = some GetoptResult.done ∧
    (∀ r ∈ (runGetopt (Getopt.ResetLong [str "prog", str "n1", str "-a", str "n2"]
        (str "a") [] false) false 6).1.dropLast, r ≠ GetoptResult.done) :=
  C1_permute_layout [str "prog", str "n1", str "-a", str "n2"] (str "a") [] false 6
    (by decide) rfl (by decide) rfl

end getopt
